import Mathlib

/-!
Verification of the zotero-mcp incremental synchronization engine.

This file embeds the core of `src/zotero_mcp/local_db.py`,
`src/zotero-mcp/semantic_search.py` and the metadata lookup of
`src/zotero_mcp/chroma_client.py` as executable Lean definitions, and
proves or refutes the frozen claims about the update pipeline.

Modelling conventions:
* Python strings are Lean `String`s; `s[:n]` is `pySlice`, `s.strip()` is
  `pyStrip`, `"sep".join(...)` is `joinSep`.
* Nullable Python values are `Option`; Python truthiness of a string `s`
  is `s ≠ ""` and of an `Option String` is `optTruthy`.
* The SQLite store, the filesystem and the external text extractors
  (pdfminer / markitdown / BeautifulSoup) are oracles collected in an
  `Env` record: `attachmentsOf` is the `itemAttachments` join for one
  parent item, `fileExists` is `Path.exists`, and `fileText p` is the net
  result of `_extract_text_from_file p` (each extractor returns "" on
  failure, which the code treats as "no fulltext").
* Python object identity (`is`) on items read from the database is
  modelled by the `item_id` primary-key column; theorems that depend on
  it assume the `item_id`s of a run's candidate list are distinct, which
  the database guarantees.
* The ChromaDB collection is an association list `Store` of
  (id, document, metadata) triples; `collection.upsert` is an in-place
  replace-or-append per id.
-/

namespace ZoteroMcp

/-- Python `s[:n]` on a string (character slicing, `n ≥ 0`). -/
def pySlice (s : String) (n : Nat) : String :=
  ⟨s.data.take n⟩

/-- Python `str.strip()`: drop leading and trailing whitespace. -/
def pyStrip (s : String) : String :=
  ⟨((s.data.dropWhile Char.isWhitespace).reverse.dropWhile Char.isWhitespace).reverse⟩

/-- Python `"sep".join(parts)`. -/
def joinSep (sep : String) : List String → String
  | [] => ""
  | [x] => x
  | x :: y :: xs => x ++ sep ++ joinSep sep (y :: xs)

/-- Python truthiness of an optional string (`None` and `""` are falsy). -/
def optTruthy : Option String → Bool
  | none => false
  | some s => s ≠ ""

/-- Python `s.split(c)` for a one-character separator (keeps empty parts;
`"".split(c)` is `[""]`). -/
def splitChar (c : Char) : List Char → List (List Char)
  | [] => [[]]
  | x :: xs =>
    match splitChar c xs with
    | [] => [[]]
    | h :: t => if x = c then [] :: h :: t else (x :: h) :: t

/-- `splitChar` lifted to strings. -/
def pySplit (c : Char) (s : String) : List String :=
  (splitChar c s.data).map (⟨·⟩)

/-- Python `s.startswith(pre)`. -/
def pyStartsWith (s pre : String) : Bool :=
  pre.data.isPrefixOf s.data

/-- Python `s.lower()` (ASCII case folding). -/
def pyToLower (s : String) : String :=
  ⟨s.data.map Char.toLower⟩

/-- Python `c in s` for a single character. -/
def pyContainsChar (s : String) (c : Char) : Bool :=
  s.data.contains c

/-- Python `s[n:]` (character slicing, `n ≥ 0`). -/
def pyDropChars (s : String) (n : Nat) : String :=
  ⟨s.data.drop n⟩

/-- The digits of a decimal literal, as a number. -/
def digitsToNat (l : List Char) : Option Nat :=
  if l = [] ∨ ¬ l.all Char.isDigit then none
  else some (l.foldl (fun a c => a * 10 + (c.toNat - '0'.toNat)) 0)

/-- Python `int(s)` on stripped decimal literals with an optional sign
(`none` models the `ValueError`). -/
def pyToInt (s : String) : Option Int :=
  match (pyStrip s).data with
  | '-' :: rest => (digitsToNat rest).map (fun n => -(n : Int))
  | '+' :: rest => (digitsToNat rest).map (fun n => (n : Int))
  | l => (digitsToNat l).map (fun n => (n : Int))

/-- Python `if limit:`-guarded slicing used for item limits (`None` and `0`
are falsy and disable the limit). -/
def pyLimit (limit : Option Nat) (l : List α) : List α :=
  match limit with
  | none => l
  | some n => if n = 0 then l else l.take n

/-- `pathlib.Path.suffix` of a file name: `name[i:]` for the last dot
position `i` when `0 < i < len(name) - 1`, else `""` (so no extension,
dotfiles and a trailing dot all give `""`). -/
def pathSuffix (name : String) : String :=
  match name.data.reverse.findIdx? (· = '.') with
  | none => ""
  | some j =>
    let i := name.data.length - 1 - j
    if 0 < i ∧ i < name.data.length - 1 then ⟨name.data.drop i⟩ else ""

/-- One row of the `itemAttachments` join yielded by
`LocalZoteroReader._iter_parent_attachments`:
(attachment key, zotero path, declared content type). -/
structure Attachment where
  key : String
  path : Option String
  contentType : Option String
deriving DecidableEq

/-- `local_db.ZoteroItem`: one bibliographic record read from the local
database (`include_fulltext=False` leaves `fulltext` unset). -/
structure ZoteroItem where
  item_id : Nat
  key : String
  item_type : Option String := none
  doi : Option String := none
  title : Option String := none
  abstract : Option String := none
  creators : Option String := none
  fulltext : Option String := none
  fulltext_source : Option String := none
  notes : Option String := none
  extra : Option String := none
  date_added : Option String := none
  date_modified : Option String := none
deriving DecidableEq

/-- One labelled part of `get_searchable_text`, present when the field is
truthy. -/
def searchablePart (label : String) (v : Option String) : List String :=
  match v with
  | some s => if s ≠ "" then [label ++ s] else []
  | none => []

/-- The fulltext part of `get_searchable_text`: present when truthy, and
truncated to 5000 characters plus an ellipsis marker when longer. -/
def searchableContent (fulltext : Option String) : List String :=
  match fulltext with
  | some ft =>
    if ft ≠ "" then
      [if ft.length > 5000 then "Content: " ++ (pySlice ft 5000 ++ "...")
       else "Content: " ++ ft]
    else []
  | none => []

/-- `ZoteroItem.get_searchable_text`: combine the text fields, truncating
fulltext to 5000 characters plus an ellipsis marker. -/
def ZoteroItem.get_searchable_text (it : ZoteroItem) : String :=
  joinSep "\n\n"
    (searchablePart "Title: " it.title ++ searchablePart "Authors: " it.creators ++
     searchablePart "Abstract: " it.abstract ++ searchablePart "Extra: " it.extra ++
     searchablePart "Notes: " it.notes ++ searchableContent it.fulltext)

/-- One creator dict; the Python code tests key presence, so present-but-
empty and absent are distinguished with `Option`. -/
structure Creator where
  firstName : Option String := none
  lastName : Option String := none
  name : Option String := none
deriving DecidableEq

/-- `data` dict of an API-format item as built by
`_get_items_from_local_db` or returned by the Zotero API; absent dict keys
are modelled by the falsy defaults that `dict.get` would return. -/
structure ApiData where
  key : String := ""
  itemType : String := ""
  title : String := ""
  abstractNote : String := ""
  extra : String := ""
  fulltext : String := ""
  fulltextSource : String := ""
  date : String := ""
  dateAdded : Option String := none
  dateModified : Option String := none
  creators : List Creator := []
  notes : String := ""
  publicationTitle : String := ""
  tags : List String := []
  url : String := ""
  DOI : String := ""
  note : String := ""
deriving DecidableEq

/-- An API-format item (`key` at top level plus the `data` dict). -/
structure ApiItem where
  key : String
  data : ApiData
deriving DecidableEq

/-- External collaborators of one run: the local database rows, the remote
API, the attachment table and the filesystem/extractor oracles. -/
structure Env where
  /-- `is_local_mode()` -/
  isLocal : Bool
  /-- result of `reader.get_items_with_text` (before the `LIMIT` clause);
  `.error` models the SQLite store being missing or locked -/
  localDb : Except String (List ZoteroItem)
  /-- net result of the `zotero_client.items` paging loop -/
  apiFetch : Except String (List ApiItem)
  /-- `_iter_parent_attachments item_id` -/
  attachmentsOf : Nat → List Attachment
  /-- `Path.exists` on a storage-relative path -/
  fileExists : List String → Bool
  /-- `_extract_text_from_file` on a storage-relative path -/
  fileText : List String → String

/-- `_resolve_attachment_path`: `storage:rel` resolves to the components
`attachment_key :: rel.split("/")` (empty segments dropped) under the
storage directory; empty paths and external links resolve to nothing. -/
def resolveAttachmentPath (attachmentKey : String) (zoteroPath : String) :
    Option (List String) :=
  if zoteroPath = "" then none
  else if pyStartsWith zoteroPath "storage:" then
    let rel := pyDropChars zoteroPath 8
    let parts := (pySplit '/' rel).filter (· ≠ "")
    some (attachmentKey :: parts)
  else none

/-- The attachment-selection fold of `_extract_fulltext_for_item`: first
existing resolved PDF (by declared content type) and first existing
resolved HTML attachment. -/
def bestAttachments (env : Env) (itemId : Nat) :
    Option (List String) × Option (List String) :=
  (env.attachmentsOf itemId).foldl
    (fun acc a =>
      match resolveAttachmentPath a.key (a.path.getD "") with
      | none => acc
      | some p =>
        if env.fileExists p then
          if a.contentType = some "application/pdf" ∧ acc.1 = none then
            (some p, acc.2)
          else if (pyStartsWith (a.contentType.getD "") "text/html") ∧ acc.2 = none then
            (acc.1, some p)
          else acc
        else acc)
    (none, none)

/-- The attachment the extractor settles on: the best PDF, else the best
HTML attachment. -/
def bestTarget (env : Env) (itemId : Nat) : Option (List String) :=
  (bestAttachments env itemId).1 <|> (bestAttachments env itemId).2

/-- `_extract_fulltext_for_item`: extract text from the best attachment,
truncate to 10000 characters, and tag the source by the target's file
suffix (`pdf`, `html`, or `file` for any other suffix). -/
def extract_fulltext_for_item (env : Env) (itemId : Nat) :
    Option (String × String) :=
  match bestTarget env itemId with
  | none => none
  | some target =>
    let text := env.fileText target
    if text = "" then none
    else
      let name := target.getLastD ""
      let suffix := pyToLower (pathSuffix name)
      let source :=
        if suffix = ".pdf" then "pdf"
        else if suffix = ".html" ∨ suffix = ".htm" then "html"
        else "file"
      some (pySlice text 10000, source)

/-- `get_fulltext_meta_for_item`: the raw attachment rows of an item (the
probe only uses the length of this list). -/
def get_fulltext_meta_for_item (env : Env) (itemId : Nat) :
    List (String × Option String × Option String) :=
  (env.attachmentsOf itemId).map (fun a => (a.key, a.path, a.contentType))

/-- One formatted name of `utils.format_creators`: `"last, first"` when
both name parts are present, else the single `name` field. -/
def creatorName (c : Creator) : Option String :=
  match c.firstName, c.lastName with
  | some f, some l => some (l ++ ", " ++ f)
  | _, _ =>
    match c.name with
    | some n => some n
    | none => none

/-- `utils.format_creators`. -/
def format_creators (creators : List Creator) : String :=
  let names := creators.filterMap creatorName
  if names ≠ [] then joinSep "; " names else "No authors listed"

/-- One creator dict of `_parse_creators_string`: skip blank segments,
split `"last, first"` on the first comma, else keep as a single name. -/
def parseCreator (c0 : String) : Option Creator :=
  let c := pyStrip c0
  if c = "" then none
  else if pyContainsChar c ',' then
    let parts := pySplit ',' c
    let last := parts.headD ""
    let first := joinSep "," parts.tail
    some { firstName := some (pyStrip first), lastName := some (pyStrip last) }
  else some { name := some c }

/-- `_parse_creators_string`: split `"Smith, John; Doe, Jane"` into
creator dicts. -/
def parse_creators_string (creatorsStr : String) : List Creator :=
  (pySplit ';' creatorsStr).filterMap parseCreator

/-- The scan of `re.sub(r'<[^>]+>', '', note)`, with a recursion fuel that
the wrapper instantiates with the list length (always sufficient, since
each step consumes at least one character). -/
def stripTagsAux : Nat → List Char → List Char
  | _, [] => []
  | 0, l => l
  | fuel + 1, c :: rest =>
    if c = '<' then
      let body := rest.takeWhile (· ≠ '>')
      let close := rest.dropWhile (· ≠ '>')
      if body ≠ [] ∧ close ≠ [] then stripTagsAux fuel close.tail
      else c :: stripTagsAux fuel rest
  else c :: stripTagsAux fuel rest

/-- `re.sub(r'<[^>]+>', '', note)`: drop every leftmost run `<...>` with a
nonempty body of non-`>` characters. -/
def stripTags (l : List Char) : List Char :=
  stripTagsAux l.length l

/-- `_create_document_text`: title, creators, abstract, and optional
publication / tag / cleaned-note parts, joined by spaces with falsy parts
filtered out. -/
def create_document_text (item : ApiItem) : String :=
  let data := item.data
  let creatorsText := format_creators data.creators
  let extraFields :=
    (if data.publicationTitle ≠ "" then [data.publicationTitle] else []) ++
    (if data.tags ≠ [] then [joinSep " " data.tags] else []) ++
    (if data.note ≠ "" then [⟨stripTags data.note.data⟩] else [])
  let textParts := [data.title, creatorsText, data.abstractNote] ++ extraFields
  joinSep " " (textParts.filter (· ≠ ""))

/-- The citation-key scan of `_create_metadata`: first line of `extra`
whose lowercase form starts with `citation key:` or `citationkey:`, taking
the stripped text after the first colon. -/
def parseCitationKey (extra : String) : String :=
  match (pySplit '\n' extra).find? (fun line =>
      pyStartsWith (pyToLower line) "citation key:" ||
      pyStartsWith (pyToLower line) "citationkey:") with
  | some line => pyStrip (joinSep ":" (pySplit ':' line).tail)
  | none => ""

/-- The ChromaDB metadata dict built by `_create_metadata`. The code only
adds the `has_fulltext` / `fulltext_source` keys when truthy and the probe
reads them back with falsy defaults, so the absent key is modelled by
`false` / `""`. -/
structure Metadata where
  item_key : String
  item_type : String
  title : String
  date : String
  date_added : Option String
  date_modified : Option String
  creators : String
  publication : String
  url : String
  doi : String
  has_fulltext : Bool
  fulltext_source : String
  tags : String
  citation_key : String
deriving DecidableEq

/-- `_create_metadata`. -/
def create_metadata (item : ApiItem) : Metadata :=
  let data := item.data
  { item_key := item.key
    item_type := data.itemType
    title := data.title
    date := data.date
    date_added := data.dateAdded
    date_modified := data.dateModified
    creators := format_creators data.creators
    publication := data.publicationTitle
    url := data.url
    doi := data.DOI
    has_fulltext := data.fulltext ≠ ""
    fulltext_source :=
      if data.fulltext ≠ "" ∧ data.fulltextSource ≠ "" then data.fulltextSource
      else ""
    tags := joinSep " " data.tags
    citation_key := parseCitationKey data.extra }

/-- The persisted update configuration; `last_update` is the parsed
`datetime.fromisoformat` timestamp in seconds (`none` for unset or empty). -/
structure UpdateConfig where
  auto_update : Bool
  update_frequency : String
  last_update : Option Int
deriving DecidableEq

/-- The `int(frequency.split("_")[1])` parse of an `every_N` frequency
(`none` when the parse raises, which the code turns into `False`). -/
def parseEveryDays (frequency : String) : Option Int :=
  match pySplit '_' frequency with
  | _ :: d :: _ => pyToInt d
  | _ => none

/-- `should_update_database` as the pure decision over the configuration
and the current time `now` (seconds); one day is 86400 seconds. -/
def should_update_database (cfg : UpdateConfig) (now : Int) : Bool :=
  if ¬ cfg.auto_update then false
  else if cfg.update_frequency = "manual" then false
  else if cfg.update_frequency = "startup" then true
  else if cfg.update_frequency = "daily" then
    match cfg.last_update with
    | none => true
    | some lu => now - lu ≥ 86400
  else if pyStartsWith cfg.update_frequency "every_" then
    match parseEveryDays cfg.update_frequency with
    | none => false
    | some days =>
      match cfg.last_update with
      | none => true
      | some lu => now - lu ≥ 86400 * days
  else false

/-- `norm` inside `_get_items_from_local_db`: lowercase and remove all
whitespace (`"".join(s.lower().split())`). -/
def pyNorm (s : String) : String :=
  ⟨(pyToLower s).data.filter (fun c => ¬ c.isWhitespace)⟩

/-- A deduplication index key: `("doi", d)` or `("title", t)`. -/
inductive DKey where
  | doi (s : String)
  | title (s : String)
deriving DecidableEq

/-- `("doi", norm(it.doi)) if it.doi else None`. -/
def doiKeyOf (it : ZoteroItem) : Option DKey :=
  match it.doi with
  | some s => if s ≠ "" then some (DKey.doi (pyNorm s)) else none
  | none => none

/-- `("title", norm(it.title)) if it.title else None`. -/
def titleKeyOf (it : ZoteroItem) : Option DKey :=
  match it.title with
  | some s => if s ≠ "" then some (DKey.title (pyNorm s)) else none
  | none => none

/-- The keys an item contributes to the dedup index, DOI first. -/
def keysOf (it : ZoteroItem) : List DKey :=
  (doiKeyOf it).toList ++ (titleKeyOf it).toList

/-- `prefer_types.get(item_type, 0)`: journal articles rank above
preprints, everything else is unranked. -/
def typeScore (t : Option String) : Nat :=
  if t = some "journalArticle" then 2
  else if t = some "preprint" then 1
  else 0

/-- `consider(k)`: record the item under key `k` when the slot is empty or
the item ranks strictly higher than the current holder. -/
def considerKey (m : DKey → Option ZoteroItem) (k : Option DKey)
    (it : ZoteroItem) : DKey → Option ZoteroItem :=
  match k with
  | none => m
  | some k =>
    match m k with
    | none => fun q => if q = k then some it else m q
    | some cur =>
      if typeScore it.item_type > typeScore cur.item_type then
        fun q => if q = k then some it else m q
      else m

/-- One iteration of the `key_to_best` build loop: consider the DOI key,
then the title key. -/
def dedupStep (m : DKey → Option ZoteroItem) (it : ZoteroItem) :
    DKey → Option ZoteroItem :=
  considerKey (considerKey m (doiKeyOf it) it) (titleKeyOf it) it

/-- The fully built `key_to_best` index. -/
def keyToBest (l : List ZoteroItem) : DKey → Option ZoteroItem :=
  l.foldl dedupStep (fun _ => none)

/-- The drop test of the dedup filter loop: a preprint is dropped when a
distinct journal-article holds one of its index keys (`best is not it`
modelled by the `item_id` primary key). -/
def dedupDrop (m : DKey → Option ZoteroItem) (it : ZoteroItem) : Bool :=
  if it.item_type = some "preprint" then
    (keysOf it).any (fun k =>
      match m k with
      | some best =>
        decide (best.item_id ≠ it.item_id ∧ best.item_type = some "journalArticle")
      | none => false)
  else false

/-- The deduplication pass of `_get_items_from_local_db`: build the index
over the whole candidate list, then drop losing preprints. -/
def dedupItems (l : List ZoteroItem) : List ZoteroItem :=
  l.filter (fun it => ¬ dedupDrop (keyToBest l) it)

/-- The ChromaDB collection: (id, document, metadata) triples. -/
abbrev Store := List (String × String × Metadata)

/-- `chroma_client.get_document_metadata`: metadata of the stored document
with the given id, if any. -/
def get_document_metadata (store : Store) (docId : String) : Option Metadata :=
  (store.find? (fun e => e.1 = docId)).map (fun e => e.2.2)

/-- `collection.upsert` for one (id, document, metadata) triple: replace
the entry with that id in place, or append. -/
def upsertOne (store : Store) (e : String × String × Metadata) : Store :=
  if store.any (fun o => o.1 = e.1) then
    store.map (fun o => if o.1 = e.1 then e else o)
  else store ++ [e]

/-- `collection.upsert` over the batch's parallel id/document/metadata
lists. -/
def upsertStore (store : Store) (entries : List (String × String × Metadata)) :
    Store :=
  entries.foldl upsertOne store

/-- The per-item reprocessing decision of the Phase-2 loop in
`_get_items_from_local_db` (probe enabled only when a chroma client was
passed and the run is not a forced rebuild): process when nothing is
stored; otherwise reprocess exactly when the stored metadata lacks
fulltext but the source has attachment rows for the item. -/
def shouldExtractDecision (probeStore : Option Store) (forceRebuild : Bool)
    (key : String) (localHasFulltext : Bool) : Bool :=
  match probeStore, forceRebuild with
  | some store, false =>
    match get_document_metadata store key with
    | some existing =>
      if ¬ existing.has_fulltext ∧ localHasFulltext then true else false
    | none => true
  | _, _ => true

/-- The extraction step of the Phase-2 loop: extract fulltext for a kept
item that has none yet. -/
def extractStep (env : Env) (it : ZoteroItem) : ZoteroItem :=
  if optTruthy it.fulltext then it
  else
    match extract_fulltext_for_item env it.item_id with
    | some (t, s) => { it with fulltext := some t, fulltext_source := some s }
    | none => it

/-- Phase 2 of `_get_items_from_local_db`: keep exactly the items the
probe flags, extracting fulltext for each kept item that has none. -/
def probeExtract (env : Env) (probeStore : Option Store) (forceRebuild : Bool)
    (items : List ZoteroItem) : List ZoteroItem :=
  items.filterMap (fun it =>
    let localHasFulltext := (get_fulltext_meta_for_item env it.item_id).length > 0
    if shouldExtractDecision probeStore forceRebuild it.key localHasFulltext then
      some (extractStep env it)
    else none)

/-- The API-compatible item built at the end of `_get_items_from_local_db`
(fulltext fields only populated in extraction mode; keys the code never
sets keep their falsy `dict.get` defaults). -/
def toApiItem (extractFulltext : Bool) (item : ZoteroItem) : ApiItem :=
  { key := item.key
    data := {
      key := item.key
      itemType :=
        match item.item_type with
        | some t => if t ≠ "" then t else "journalArticle"
        | none => "journalArticle"
      title := (item.title.getD "")
      abstractNote := (item.abstract.getD "")
      extra := (item.extra.getD "")
      fulltext := if extractFulltext then (item.fulltext.getD "") else ""
      fulltextSource := if extractFulltext then (item.fulltext_source.getD "") else ""
      dateAdded := item.date_added
      dateModified := item.date_modified
      creators :=
        if optTruthy item.creators then parse_creators_string (item.creators.getD "")
        else []
      notes := if optTruthy item.notes then item.notes.getD "" else "" } }

/-- `get_items_with_text(limit, include_fulltext=False)` builds rows with
the fulltext fields unset. -/
def sanitizeRow (it : ZoteroItem) : ZoteroItem :=
  { it with fulltext := none, fulltext_source := none }

/-- `_get_items_from_api`: the paging loop fetches every page, filters out
attachment and note items, and truncates to the limit. -/
def get_items_from_api (env : Env) (limit : Option Nat) :
    Except String (List ApiItem) :=
  match env.apiFetch with
  | .error e => .error e
  | .ok items =>
    .ok (pyLimit limit (items.filter (fun it =>
      it.data.itemType ≠ "attachment" ∧ it.data.itemType ≠ "note")))

/-- `_get_items_from_local_db`: fetch rows, dedup, probe/extract (in
extraction mode), convert to API format; any fetch failure is swallowed
and the reader falls back to the API. -/
def get_items_from_local_db (env : Env) (limit : Option Nat)
    (extractFulltext : Bool) (probeStore : Option Store)
    (forceRebuild : Bool) : Except String (List ApiItem) :=
  match env.localDb with
  | .error _ => get_items_from_api env limit
  | .ok rows =>
    let localItems := pyLimit limit (rows.map sanitizeRow)
    let deduped := dedupItems localItems
    let finalItems :=
      if extractFulltext then probeExtract env probeStore forceRebuild deduped
      else deduped.map (fun it => { it with fulltext := none, fulltext_source := none })
    .ok (finalItems.map (toApiItem extractFulltext))

/-- `_get_items_from_source`: the local database is used only when both
extraction mode and local mode hold. -/
def get_items_from_source (env : Env) (limit : Option Nat)
    (extractFulltext : Bool) (probeStore : Option Store)
    (forceRebuild : Bool) : Except String (List ApiItem) :=
  if extractFulltext ∧ env.isLocal then
    get_items_from_local_db env limit extractFulltext probeStore forceRebuild
  else get_items_from_api env limit

/-- The staging step of the `_process_item_batch` item loop: an item with
a falsy key is skipped; otherwise the document text is the fulltext when
its stripped form is truthy, else the structured-fields text, and the item
is skipped when the stripped document text is falsy. Nothing in the loop
body can raise on these inputs, so the per-item `except` arm contributes
no errors. -/
def stageItem (item : ApiItem) : Option (String × String × Metadata) :=
  if item.key = "" then none
  else
    let fulltext := item.data.fulltext
    let docText := if pyStrip fulltext ≠ "" then fulltext else create_document_text item
    let metadata := create_metadata item
    if pyStrip docText = "" then none
    else some (item.key, docText, metadata)

/-- Per-batch counters of `_process_item_batch`. -/
structure BatchStats where
  processed : Nat := 0
  added : Nat := 0
  updated : Nat := 0
  skipped : Nat := 0
  errors : Nat := 0
deriving DecidableEq

/-- `_process_item_batch`: stage the batch's items, then upsert the staged
documents in one call; a failing upsert is caught and counted as one error
per staged document, leaving the collection untouched. -/
def process_item_batch (store : Store) (items : List ApiItem)
    (upsertOk : Bool) : BatchStats × Store :=
  let staged := items.filterMap stageItem
  let stats : BatchStats :=
    { processed := staged.length
      skipped := items.length - staged.length
      added := if staged ≠ [] ∧ upsertOk then staged.length else 0
      errors := if staged ≠ [] ∧ ¬ upsertOk then staged.length else 0 }
  if staged ≠ [] ∧ upsertOk then (stats, upsertStore store staged)
  else (stats, store)

/-- The `range(0, len(items), batch_size)` chunking loop, with a recursion
fuel that the wrapper instantiates with the list length (always
sufficient, since each chunk consumes at least one element). -/
def chunksAux (n : Nat) : Nat → List α → List (List α)
  | _, [] => []
  | 0, _ => []
  | fuel + 1, x :: xs => (x :: xs).take n :: chunksAux n fuel ((x :: xs).drop n)

/-- `range(0, len(items), batch_size)` chunking. -/
def chunksOf (n : Nat) (l : List α) : List (List α) :=
  if n = 0 then [] else chunksAux n l.length l

/-- The batch loop of `update_database`: process the batches in order,
accumulating the counters; `upsertOk i` tells whether the `i`-th batch's
upsert succeeds. -/
def runBatches (store : Store) (batches : List (List ApiItem))
    (upsertOk : Nat → Bool) (i : Nat) : BatchStats × Store :=
  match batches with
  | [] => ({}, store)
  | b :: bs =>
    let r := process_item_batch store b (upsertOk i)
    let rest := runBatches r.2 bs upsertOk (i + 1)
    ({ processed := r.1.processed + rest.1.processed
       added := r.1.added + rest.1.added
       updated := r.1.updated + rest.1.updated
       skipped := r.1.skipped + rest.1.skipped
       errors := r.1.errors + rest.1.errors }, rest.2)

/-- The run statistics dict of `update_database` (timing fields omitted). -/
structure UpdateStats where
  total_items : Nat := 0
  processed_items : Nat := 0
  added_items : Nat := 0
  updated_items : Nat := 0
  skipped_items : Nat := 0
  errors : Nat := 0
  error : Option String := none
deriving DecidableEq

/-- `update_database`: reset the collection on a forced rebuild, fetch the
candidates (probe enabled only when not rebuilding), process them in
batches of 50, and return the counters; a fetch failure is caught at the
pipeline boundary and reported in the stats' `error` field. -/
def update_database (env : Env) (store : Store) (forceFullRebuild : Bool)
    (limit : Option Nat) (extractFulltext : Bool) (upsertOk : Nat → Bool) :
    UpdateStats × Store :=
  let store := if forceFullRebuild then [] else store
  let probeStore := if forceFullRebuild then none else some store
  match get_items_from_source env limit extractFulltext probeStore
      forceFullRebuild with
  | .error e => ({ error := some e }, store)
  | .ok allItems =>
    let r := runBatches store (chunksOf 50 allItems) upsertOk 0
    ({ total_items := allItems.length
       processed_items := r.1.processed
       added_items := r.1.added
       updated_items := r.1.updated
       skipped_items := r.1.skipped
       errors := r.1.errors }, r.2)

/-! ## Claim C9: the scheduling decision -/

/-- C9: `should_update_database` is a pure decision over
`(auto_update, frequency, last_update, now)`: it returns false whenever
auto-update is off or the frequency is manual; true for the startup
frequency; for the daily frequency, true iff the last update is unset or
at least one day old; and for a well-formed `every_N` frequency, true iff
the last update is unset or at least `N` days old. The embedding is a
pure function, matching the code, which performs no writes to the stored
configuration. -/
theorem claim_c9_should_update_database (cfg : UpdateConfig) (now : Int) :
    (cfg.auto_update = false → should_update_database cfg now = false) ∧
    (cfg.update_frequency = "manual" → should_update_database cfg now = false) ∧
    (cfg.auto_update = true → cfg.update_frequency = "startup" →
      should_update_database cfg now = true) ∧
    (cfg.auto_update = true → cfg.update_frequency = "daily" →
      (should_update_database cfg now = true ↔
        cfg.last_update = none ∨
        ∃ lu, cfg.last_update = some lu ∧ 86400 ≤ now - lu)) ∧
    (∀ d : Int, cfg.auto_update = true →
      pyStartsWith cfg.update_frequency "every_" = true →
      parseEveryDays cfg.update_frequency = some d →
      (should_update_database cfg now = true ↔
        cfg.last_update = none ∨
        ∃ lu, cfg.last_update = some lu ∧ 86400 * d ≤ now - lu)) := by
  refine ⟨fun hau => ?_, fun hf => ?_, fun hau hf => ?_, fun hau hf => ?_,
    fun d hau hpre hparse => ?_⟩
  · simp [should_update_database, hau]
  · simp [should_update_database, hf]
  · simp [should_update_database, hau, hf]
  · have h1 : ("daily" : String) ≠ "manual" := by decide
    have h2 : ("daily" : String) ≠ "startup" := by decide
    cases hlu : cfg.last_update with
    | none => simp [should_update_database, hau, hf, hlu, h1, h2]
    | some lu => simp [should_update_database, hau, hf, hlu, h1, h2]
  · have h1 : cfg.update_frequency ≠ "manual" := by
      intro h
      rw [h] at hpre
      exact absurd hpre (by decide)
    have h2 : cfg.update_frequency ≠ "startup" := by
      intro h
      rw [h] at hpre
      exact absurd hpre (by decide)
    have h3 : cfg.update_frequency ≠ "daily" := by
      intro h
      rw [h] at hpre
      exact absurd hpre (by decide)
    cases hlu : cfg.last_update with
    | none => simp [should_update_database, hau, hpre, hparse, hlu, h1, h2, h3]
    | some lu => simp [should_update_database, hau, hpre, hparse, hlu, h1, h2, h3]

/-- Witness for C9: with auto-update on, frequency `every_7` and a last
update 7 days before `now`, the decision is to run. -/
theorem claim_c9_witness :
    should_update_database
      { auto_update := true, update_frequency := "every_7", last_update := some 0 }
      604800 = true :=
  ((claim_c9_should_update_database
      { auto_update := true, update_frequency := "every_7", last_update := some 0 }
      604800).2.2.2.2 7 rfl (by decide) (by decide)).mpr
    (Or.inr ⟨0, rfl, by decide⟩)

/-! ## Claim C1: the probe decision table -/

/-- C1: in an extraction-mode run that is not a forced rebuild (so the
probe runs against the collection), the per-record reprocessing decision
matches the spec table on all four (stored-metadata, local-availability)
combinations: process when nothing is stored for the key; skip when the
stored metadata has fulltext; process when it lacks fulltext but local
fulltext is available; skip when it lacks fulltext and none is available
locally. -/
theorem claim_c1_probe_decision_table (store : Store) (key : String)
    (localHasFulltext : Bool) :
    (get_document_metadata store key = none →
      shouldExtractDecision (some store) false key localHasFulltext = true) ∧
    (∀ m, get_document_metadata store key = some m → m.has_fulltext = true →
      shouldExtractDecision (some store) false key localHasFulltext = false) ∧
    (∀ m, get_document_metadata store key = some m → m.has_fulltext = false →
      localHasFulltext = true →
      shouldExtractDecision (some store) false key localHasFulltext = true) ∧
    (∀ m, get_document_metadata store key = some m → m.has_fulltext = false →
      localHasFulltext = false →
      shouldExtractDecision (some store) false key localHasFulltext = false) := by
  refine ⟨fun hn => ?_, fun m hm hf => ?_, fun m hm hf hl => ?_,
    fun m hm hf hl => ?_⟩
  · simp [shouldExtractDecision, hn]
  · simp [shouldExtractDecision, hm, hf]
  · simp [shouldExtractDecision, hm, hf, hl]
  · simp [shouldExtractDecision, hm, hf, hl]

/-- A stored entry whose metadata records captured fulltext, for the C1
witness. -/
def witnessMetadata : Metadata :=
  create_metadata
    { key := "KEYW"
      data := { key := "KEYW", itemType := "journalArticle", title := "W"
                fulltext := "body", fulltextSource := "pdf" } }

/-- Witness for C1: with that entry stored, the probe skips the record
even though local fulltext is available. -/
theorem claim_c1_witness :
    shouldExtractDecision (some [("KEYW", "body", witnessMetadata)]) false
      "KEYW" true = false :=
  (claim_c1_probe_decision_table [("KEYW", "body", witnessMetadata)] "KEYW"
    true).2.1 witnessMetadata (by decide) (by decide)

/-! ## Claim C10: the searchable-text fulltext cap -/

/-- Joining a list that ends in `c` yields a string ending in `c`. -/
theorem joinSep_concat (sep c : String) (A : List String) :
    ∃ p, joinSep sep (A ++ [c]) = p ++ c := by
  induction A with
  | nil => exact ⟨"", rfl⟩
  | cons a A ih =>
    obtain ⟨p, hp⟩ := ih
    cases A with
    | nil => exact ⟨a ++ sep, rfl⟩
    | cons b B =>
      refine ⟨a ++ sep ++ p, ?_⟩
      calc joinSep sep (a :: (b :: B) ++ [c])
          = a ++ sep ++ joinSep sep ((b :: B) ++ [c]) := rfl
        _ = a ++ sep ++ (p ++ c) := by rw [hp]
        _ = a ++ sep ++ p ++ c := (String.append_assoc (a ++ sep) p c).symm

/-- C10: `get_searchable_text` appends a `Content:` part holding exactly
the first 5000 characters of the fulltext followed by `...` when the
fulltext is longer than 5000 characters, and the unmodified fulltext when
it is nonempty and at most 5000 characters long. -/
theorem claim_c10_searchable_text_cap (it : ZoteroItem) :
    (∀ ft, it.fulltext = some ft → ft.length > 5000 →
      ∃ p, it.get_searchable_text =
        p ++ ("Content: " ++ (pySlice ft 5000 ++ "..."))) ∧
    (∀ ft, it.fulltext = some ft → ft ≠ "" → ft.length ≤ 5000 →
      ∃ p, it.get_searchable_text = p ++ ("Content: " ++ ft)) := by
  constructor
  · intro ft hft hlen
    have hne : ft ≠ "" := by
      intro h
      rw [h] at hlen
      exact absurd hlen (by decide)
    unfold ZoteroItem.get_searchable_text searchableContent
    rw [hft]
    simp only [if_pos hne, if_pos hlen, ← List.append_assoc]
    exact joinSep_concat _ _ _
  · intro ft hft hne hlen
    have hnot : ¬ ft.length > 5000 := by omega
    unfold ZoteroItem.get_searchable_text searchableContent
    rw [hft]
    simp only [if_pos hne, if_neg hnot, ← List.append_assoc]
    exact joinSep_concat _ _ _

/-- Witness for C10: a 5001-character fulltext is truncated to its first
5000 characters plus the ellipsis marker. -/
theorem claim_c10_witness :
    ∃ p,
      (ZoteroItem.get_searchable_text
        { item_id := 1, key := "KEYW2", title := some "T",
          fulltext := some ⟨List.replicate 5001 'a'⟩ }) =
      p ++ ("Content: " ++
        (pySlice ⟨List.replicate 5001 'a'⟩ 5000 ++ "...")) :=
  (claim_c10_searchable_text_cap
    { item_id := 1, key := "KEYW2", title := some "T",
      fulltext := some ⟨List.replicate 5001 'a'⟩ }).1
    ⟨List.replicate 5001 'a'⟩ rfl
    (by show (String.mk (List.replicate 5001 'a')).length > 5000
        rw [show (String.mk (List.replicate 5001 'a')).length =
              (List.replicate 5001 'a').length from rfl, List.length_replicate]
        omega)

/-! ## Claim C8: extraction truncation -/

/-- Length of a Python slice `s[:n]`. -/
theorem pySlice_length (s : String) (n : Nat) :
    (pySlice s n).length = min n s.length := by
  show (s.data.take n).length = min n s.data.length
  exact List.length_take n s.data

/-- C8: `extract_fulltext_for_item` returns nothing or a text of at most
10000 characters; and when the chosen attachment's raw extracted text
exceeds 10000 characters, the returned text is exactly the 10000-character
slice. -/
theorem claim_c8_extract_truncation (env : Env) (itemId : Nat) :
    (extract_fulltext_for_item env itemId = none ∨
      ∃ t s, extract_fulltext_for_item env itemId = some (t, s) ∧
        t.length ≤ 10000) ∧
    (∀ target, bestTarget env itemId = some target →
      (env.fileText target).length > 10000 →
      ∃ s, extract_fulltext_for_item env itemId =
          some (pySlice (env.fileText target) 10000, s) ∧
        (pySlice (env.fileText target) 10000).length = 10000) := by
  constructor
  · unfold extract_fulltext_for_item
    cases hbt : bestTarget env itemId with
    | none => exact Or.inl rfl
    | some target =>
      by_cases htext : env.fileText target = ""
      · exact Or.inl (by simp [htext])
      · refine Or.inr ⟨pySlice (env.fileText target) 10000, ?_, ?_, ?_⟩
        · exact if (pyToLower (pathSuffix (target.getLastD ""))) = ".pdf" then "pdf"
            else if (pyToLower (pathSuffix (target.getLastD ""))) = ".html" ∨
                (pyToLower (pathSuffix (target.getLastD ""))) = ".htm" then "html"
            else "file"
        · simp [htext]
        · rw [pySlice_length]
          exact Nat.min_le_left _ _
  · intro target hbt hlen
    have htext : env.fileText target ≠ "" := by
      intro h
      rw [h] at hlen
      exact absurd hlen (by decide)
    unfold extract_fulltext_for_item
    rw [hbt]
    refine ⟨if (pyToLower (pathSuffix (target.getLastD ""))) = ".pdf" then "pdf"
        else if (pyToLower (pathSuffix (target.getLastD ""))) = ".html" ∨
            (pyToLower (pathSuffix (target.getLastD ""))) = ".htm" then "html"
        else "file", ?_, ?_⟩
    · simp [htext]
    · rw [pySlice_length]
      omega

/-- The environment for the C8 witness: one existing PDF attachment whose
raw text is 10001 characters long. -/
def envC8 : Env where
  isLocal := true
  localDb := .ok []
  apiFetch := .error "unused"
  attachmentsOf := fun itemId =>
    if itemId = 1 then
      [{ key := "ATT8", path := some "storage:f.pdf",
         contentType := some "application/pdf" }]
    else []
  fileExists := fun p => p = ["ATT8", "f.pdf"]
  fileText := fun p =>
    if p = ["ATT8", "f.pdf"] then ⟨List.replicate 10001 'a'⟩ else ""

/-- Witness for C8: the 10001-character extraction is cut to exactly 10000
characters. -/
theorem claim_c8_witness :
    ∃ s, extract_fulltext_for_item envC8 1 =
        some (pySlice (envC8.fileText ["ATT8", "f.pdf"]) 10000, s) ∧
      (pySlice (envC8.fileText ["ATT8", "f.pdf"]) 10000).length = 10000 :=
  (claim_c8_extract_truncation envC8 1).2 ["ATT8", "f.pdf"] (by decide)
    (by show (if (["ATT8", "f.pdf"] : List String) = ["ATT8", "f.pdf"] then
            (⟨List.replicate 10001 'a'⟩ : String) else "").length > 10000
        rw [if_pos rfl,
          show (String.mk (List.replicate 10001 'a')).length =
            (List.replicate 10001 'a').length from rfl, List.length_replicate]
        omega)

/-! ## Claim C5: failure semantics of candidate fetching -/

/-- A well-formed API item used by several concrete runs. -/
def apiItemOk : ApiItem :=
  { key := "K1", data := { key := "K1", itemType := "journalArticle", title := "T1" } }

/-- A local store that is locked while the remote API is reachable. -/
def envLockedWithApi : Env where
  isLocal := true
  localDb := .error "database is locked"
  apiFetch := .ok [apiItemOk]
  attachmentsOf := fun _ => []
  fileExists := fun _ => false
  fileText := fun _ => ""

/-- Counterexample to C5 as stated: with the source store locked but the
API reachable, the run is not fatal — `update_database` falls back to the
API, reports no error and indexes one item. -/
theorem claim_c5_counterexample :
    (update_database envLockedWithApi [] false none true (fun _ => true)).1.error
        = none ∧
    (update_database envLockedWithApi [] false none true (fun _ => true)).1.added_items
        = 1 := by
  decide

/-- C5 amended: a failure to fetch from the local store falls back to the
API; only when that also fails is the run fatal, and then `update_database`
returns (rather than raising) a stats object with the error populated, no
items counted as added, and the collection untouched. -/
theorem claim_c5_amended (env : Env) (store : Store) (limit : Option Nat)
    (upsertOk : Nat → Bool) (eLocal eApi : String)
    (hloc : env.isLocal = true)
    (hl : env.localDb = .error eLocal)
    (ha : env.apiFetch = .error eApi) :
    (update_database env store false limit true upsertOk).1.error = some eApi ∧
    (update_database env store false limit true upsertOk).1.added_items = 0 ∧
    (update_database env store false limit true upsertOk).2 = store := by
  simp [update_database, get_items_from_source, get_items_from_local_db,
    get_items_from_api, hloc, hl, ha]

/-- A run with both the local store and the API down. -/
def envAllDown : Env where
  isLocal := true
  localDb := .error "database is locked"
  apiFetch := .error "Connection refused"
  attachmentsOf := fun _ => []
  fileExists := fun _ => false
  fileText := fun _ => ""

/-- Witness for the amended C5: with both fetch paths down the run reports
the API error, adds nothing and leaves the store unchanged. -/
theorem claim_c5_witness :
    (update_database envAllDown [] false none true (fun _ => true)).1.error
        = some "Connection refused" ∧
    (update_database envAllDown [] false none true (fun _ => true)).1.added_items
        = 0 ∧
    (update_database envAllDown [] false none true (fun _ => true)).2 = [] :=
  claim_c5_amended envAllDown [] none (fun _ => true) "database is locked"
    "Connection refused" rfl rfl rfl

/-! ## Claim C6: total-candidates accounting -/

/-- Scenario record A: a journal article with DOI `X` and a PDF
attachment. -/
def itemA : ZoteroItem where
  item_id := 1
  key := "KEYA"
  item_type := some "journalArticle"
  doi := some "X"
  title := some "Paper A"

/-- Scenario record B: a preprint duplicate of A (same DOI), no
attachment. -/
def itemB : ZoteroItem where
  item_id := 2
  key := "KEYB"
  item_type := some "preprint"
  doi := some "X"
  title := some "Paper A Preprint"

/-- Scenario record C: a book with no DOI and no attachments. -/
def itemC : ZoteroItem where
  item_id := 3
  key := "KEYC"
  item_type := some "book"
  title := some "Book C"

/-- The three-record scenario library of §8 of the spec. -/
def envScenario : Env where
  isLocal := true
  localDb := .ok [itemA, itemB, itemC]
  apiFetch := .error "api down"
  attachmentsOf := fun itemId =>
    if itemId = 1 then
      [{ key := "ATTA", path := some "storage:paper.pdf",
         contentType := some "application/pdf" }]
    else []
  fileExists := fun p => p = ["ATTA", "paper.pdf"]
  fileText := fun p => if p = ["ATTA", "paper.pdf"] then "Fulltext A" else ""

/-- Counterexample to C6 as stated: the scenario enumerates 3 candidates
before deduplication, but the first extraction-mode run reports
`total_items = 2` — the count after deduplication and probe filtering, not
the pre-dedup count 3 that the claim asserts. -/
theorem claim_c6_counterexample :
    (pyLimit none (([itemA, itemB, itemC]).map sanitizeRow)).length = 3 ∧
    (update_database envScenario [] false none true (fun _ => true)).1.total_items
        = 2 ∧
    (update_database envScenario [] false none true (fun _ => true)).1.total_items
        ≠ (pyLimit none (([itemA, itemB, itemC]).map sanitizeRow)).length := by
  decide

/-- C6 amended: `total_items` equals the number of items the fetch phase
returns — the candidate count after deduplication and after probe
filtering; in the three-record scenario the first run reports
`total_items = 2`, `processed = 2`, `added = 2`, `skipped = 0`. -/
theorem claim_c6_amended :
    (∀ (env : Env) (store : Store) (limit : Option Nat) (eft : Bool)
        (upsertOk : Nat → Bool) (items : List ApiItem),
      get_items_from_source env limit eft (some store) false = .ok items →
      (update_database env store false limit eft upsertOk).1.total_items =
        items.length) ∧
    ((update_database envScenario [] false none true (fun _ => true)).1.total_items
        = 2 ∧
     (update_database envScenario [] false none true
        (fun _ => true)).1.processed_items = 2 ∧
     (update_database envScenario [] false none true
        (fun _ => true)).1.added_items = 2 ∧
     (update_database envScenario [] false none true
        (fun _ => true)).1.skipped_items = 0) := by
  constructor
  · intro env store limit eft upsertOk items hfetch
    simp [update_database, hfetch]
  · decide

/-- Witness for the amended C6: the general accounting statement applied
to the scenario run itself. -/
theorem claim_c6_witness :
    (update_database envScenario [] false none true (fun _ => true)).1.total_items =
      (probeExtract envScenario (some []) false
        (dedupItems (pyLimit none (([itemA, itemB, itemC]).map sanitizeRow)))
        |>.map (toApiItem true)).length :=
  claim_c6_amended.1 envScenario [] none true (fun _ => true) _ rfl

/-! ## Claim C4: batch error isolation -/

/-- `_process_item_batch` counters: every staged document of a batch is
counted as added exactly when the upsert succeeds. -/
theorem process_item_batch_added (store : Store) (b : List ApiItem) (ok : Bool) :
    (process_item_batch store b ok).1.added =
      if ok then (b.filterMap stageItem).length else 0 := by
  cases ok <;> by_cases h : (b.filterMap stageItem) = [] <;>
    simp [process_item_batch, h]

/-- `_process_item_batch` counters: every staged document of a batch is
counted as an error exactly when the upsert fails. -/
theorem process_item_batch_errors (store : Store) (b : List ApiItem) (ok : Bool) :
    (process_item_batch store b ok).1.errors =
      if ok then 0 else (b.filterMap stageItem).length := by
  cases ok <;> by_cases h : (b.filterMap stageItem) = [] <;>
    simp [process_item_batch, h]

/-- Across the whole batch loop, added and errors together account for
exactly the staged documents of every batch. -/
theorem runBatches_added_errors (bs : List (List ApiItem)) (store : Store)
    (upsertOk : Nat → Bool) (i : Nat) :
    (runBatches store bs upsertOk i).1.added +
      (runBatches store bs upsertOk i).1.errors =
      (bs.map (fun b => (b.filterMap stageItem).length)).sum := by
  induction bs generalizing store i with
  | nil => simp [runBatches]
  | cons b bs ih =>
    have ha := process_item_batch_added store b (upsertOk i)
    have he := process_item_batch_errors store b (upsertOk i)
    have hrec := ih (process_item_batch store b (upsertOk i)).2 (i + 1)
    simp only [runBatches, List.map_cons, List.sum_cons]
    cases hok : upsertOk i <;> rw [hok] at ha he hrec <;> simp at ha he <;> omega

/-- With an oracle that fails exactly batch `j`, the error total across
the loop is the staged-document count of batch `j` alone. -/
theorem runBatches_errors_single (j : Nat) (bs : List (List ApiItem))
    (store : Store) (i : Nat) :
    (runBatches store bs (fun n => decide (n ≠ j)) i).1.errors =
      if i ≤ j then ((bs.getD (j - i) []).filterMap stageItem).length
      else 0 := by
  induction bs generalizing store i with
  | nil =>
    simp only [runBatches, List.getD]
    split <;> simp
  | cons b bs ih =>
    have he := process_item_batch_errors store b (decide (i ≠ j))
    have hrec := ih (process_item_batch store b (decide (i ≠ j))).2 (i + 1)
    simp only [runBatches]
    rcases Nat.lt_trichotomy i j with hij | hij | hij
    · have h1 : (decide (i ≠ j)) = true := by simp; omega
      rw [h1] at he hrec ⊢
      simp only [if_pos (show i + 1 ≤ j by omega)] at hrec
      simp at he
      rw [he, hrec, if_pos (by omega : i ≤ j)]
      have h2 : j - i = (j - (i + 1)) + 1 := by omega
      rw [h2, List.getD_cons_succ]
      omega
    · subst hij
      have h1 : (decide (i ≠ i)) = false := by simp
      rw [h1] at he hrec ⊢
      simp only [if_neg (show ¬ i + 1 ≤ i by omega)] at hrec
      simp at he
      rw [he, hrec, if_pos (le_refl i)]
      simp [List.getD_cons_zero]
    · have h1 : (decide (i ≠ j)) = true := by simp; omega
      rw [h1] at he hrec ⊢
      simp only [if_neg (show ¬ i + 1 ≤ j by omega)] at hrec
      simp at he
      rw [he, hrec, if_neg (by omega : ¬ i ≤ j)]
/-- The chunking loop reassembles to the original list when the fuel
covers it. -/
theorem chunksAux_flatten (n : Nat) (hn : 0 < n) :
    ∀ (fuel : Nat) (l : List α), l.length ≤ fuel →
      (chunksAux n fuel l).flatten = l := by
  intro fuel
  induction fuel with
  | zero =>
    intro l hl
    have : l = [] := List.eq_nil_of_length_eq_zero (Nat.le_zero.mp hl)
    subst this
    rfl
  | succ fuel ih =>
    intro l hl
    cases l with
    | nil => rfl
    | cons x xs =>
      show ((x :: xs).take n :: chunksAux n fuel ((x :: xs).drop n)).flatten = x :: xs
      rw [List.flatten_cons, ih ((x :: xs).drop n) (by
        simp only [List.length_drop, List.length_cons]
        simp only [List.length_cons] at hl
        omega)]
      exact List.take_append_drop n (x :: xs)

/-- `chunksOf` partitions the list. -/
theorem chunksOf_flatten (n : Nat) (hn : 0 < n) (l : List α) :
    (chunksOf n l).flatten = l := by
  unfold chunksOf
  rw [if_neg (Nat.pos_iff_ne_zero.mp hn)]
  exact chunksAux_flatten n hn l.length l le_rfl

/-- The staged documents of all batches are the staged documents of the
whole candidate list. -/
theorem sum_staged_chunks (l : List ApiItem) :
    ((chunksOf 50 l).map (fun b => (b.filterMap stageItem).length)).sum =
      (l.filterMap stageItem).length := by
  conv_rhs => rw [← chunksOf_flatten 50 (by norm_num) l]
  simp only [List.filterMap_flatten, List.length_flatten, List.map_map]
  rfl

/-- An API item with a missing key, which the batch loop skips before
staging. -/
def apiItemNoKey : ApiItem :=
  { key := "", data := { itemType := "journalArticle", title := "T2" } }

/-- A run whose single batch holds one keyless item and one valid item. -/
def envBadKeyBatch : Env where
  isLocal := false
  localDb := .error "unused"
  apiFetch := .ok [apiItemNoKey, apiItemOk]
  attachmentsOf := fun _ => []
  fileExists := fun _ => false
  fileText := fun _ => ""

/-- Counterexample to C4 as stated: the only batch has 2 items and its
upsert fails, but the run counts 1 error, not 2 — the keyless item was
skipped before staging, and the error counter only covers the staged
documents of the failing batch. -/
theorem claim_c4_counterexample :
    ((chunksOf 50 [apiItemNoKey, apiItemOk]).getD 0 []).length = 2 ∧
    (update_database envBadKeyBatch [] false none false
        (fun n => decide (n ≠ 0))).1.errors = 1 ∧
    (update_database envBadKeyBatch [] false none false
        (fun n => decide (n ≠ 0))).1.errors ≠
      ((chunksOf 50 [apiItemNoKey, apiItemOk]).getD 0 []).length := by
  decide

/-- C4 amended: when the upsert of exactly batch `j` fails and every other
upsert succeeds, the run still processes every batch to completion, the
error total equals the number of staged documents (items with a nonempty
key and nonempty document text) of the failing batch alone, and all staged
documents of the other batches are counted as added. -/
theorem claim_c4_batch_error_isolation (env : Env) (store : Store)
    (limit : Option Nat) (eft : Bool) (allItems : List ApiItem) (j : Nat)
    (hfetch : get_items_from_source env limit eft (some store) false =
      .ok allItems)
    (hj : j < (chunksOf 50 allItems).length) :
    (update_database env store false limit eft
        (fun n => decide (n ≠ j))).1.errors =
      (((chunksOf 50 allItems).getD j []).filterMap stageItem).length ∧
    (update_database env store false limit eft
        (fun n => decide (n ≠ j))).1.added_items =
      (allItems.filterMap stageItem).length -
        (((chunksOf 50 allItems).getD j []).filterMap stageItem).length ∧
    (((chunksOf 50 allItems).getD j []).filterMap stageItem).length ≤
      (allItems.filterMap stageItem).length := by
  have herr := runBatches_errors_single j (chunksOf 50 allItems) store 0
  have hsum := runBatches_added_errors (chunksOf 50 allItems) store
    (fun n => decide (n ≠ j)) 0
  rw [sum_staged_chunks] at hsum
  simp only [if_pos (Nat.zero_le j), Nat.sub_zero] at herr
  refine ⟨?_, ?_, ?_⟩
  · simp only [update_database, Bool.false_eq_true, if_false, hfetch]
    exact herr
  · simp only [update_database, Bool.false_eq_true, if_false, hfetch]
    omega
  · have hmem : ((chunksOf 50 allItems).getD j []) ∈ chunksOf 50 allItems := by
      rw [List.getD_eq_getElem _ _ hj]
      exact List.getElem_mem hj
    have hle := List.le_sum_of_mem
      (List.mem_map_of_mem (fun b => (b.filterMap stageItem).length) hmem)
    rw [sum_staged_chunks] at hle
    exact hle

/-- Witness for the amended C4: the two-item run with its single batch
failing has 1 staged-document error and 0 additions. -/
theorem claim_c4_witness :
    (update_database envBadKeyBatch [] false none false
        (fun n => decide (n ≠ 0))).1.errors =
      (((chunksOf 50 [apiItemNoKey, apiItemOk]).getD 0 []).filterMap
        stageItem).length ∧
    (update_database envBadKeyBatch [] false none false
        (fun n => decide (n ≠ 0))).1.added_items =
      ([apiItemNoKey, apiItemOk].filterMap stageItem).length -
        (((chunksOf 50 [apiItemNoKey, apiItemOk]).getD 0 []).filterMap
          stageItem).length ∧
    (((chunksOf 50 [apiItemNoKey, apiItemOk]).getD 0 []).filterMap
        stageItem).length ≤
      ([apiItemNoKey, apiItemOk].filterMap stageItem).length :=
  claim_c4_batch_error_isolation envBadKeyBatch [] none false
    [apiItemNoKey, apiItemOk] 0 rfl (by decide)

/-! ## Claim C3: the stored-metadata invariant -/

/-- A record whose only attachment declares `application/pdf` but stores a
`.txt` file whose extracted text is a single space. -/
def itemMismatch : ZoteroItem where
  item_id := 1
  key := "KEYD"
  item_type := some "journalArticle"
  title := some "T"

/-- The environment exhibiting both failures of C3. -/
def envMismatch : Env where
  isLocal := true
  localDb := .ok [itemMismatch]
  apiFetch := .error "api down"
  attachmentsOf := fun itemId =>
    if itemId = 1 then
      [{ key := "ATTD", path := some "storage:paper.txt",
         contentType := some "application/pdf" }]
    else []
  fileExists := fun p => p = ["ATTD", "paper.txt"]
  fileText := fun p => if p = ["ATTD", "paper.txt"] then " " else ""

/-- Counterexample to C3 as stated: the run stores one document whose
metadata has `has_fulltext = true` and `fulltext_source = "file"` (outside
the claimed `{pdf, html, ""}` set), while the embedded document text is
the structured-fields text, not the extracted fulltext `" "` (the
whitespace-only fulltext is truthy for the metadata marker but falsy for
the document-text choice). -/
theorem claim_c3_counterexample :
    extract_fulltext_for_item envMismatch 1 = some (" ", "file") ∧
    (update_database envMismatch [] false none true (fun _ => true)).2.map
        (fun e => e.2.2.has_fulltext) = [true] ∧
    (update_database envMismatch [] false none true (fun _ => true)).2.map
        (fun e => e.2.2.fulltext_source) = ["file"] ∧
    (update_database envMismatch [] false none true (fun _ => true)).2.map
        (fun e => e.2.1) = ["T No authors listed"] ∧
    ("file" ≠ "pdf" ∧ "file" ≠ "html" ∧ "file" ≠ "" ∧
      "T No authors listed" ≠ " ") := by
  decide

/-- Every entry of an in-place replace-or-append comes from the old store
or is the new entry. -/
theorem mem_upsertOne (store : Store) (x e : String × String × Metadata)
    (h : e ∈ upsertOne store x) : e ∈ store ∨ e = x := by
  unfold upsertOne at h
  split at h
  · obtain ⟨o, ho, hoe⟩ := List.mem_map.mp h
    by_cases hk : o.1 = x.1
    · rw [if_pos hk] at hoe
      exact Or.inr hoe.symm
    · rw [if_neg hk] at hoe
      exact Or.inl (hoe ▸ ho)
  · rcases List.mem_append.mp h with h1 | h1
    · exact Or.inl h1
    · exact Or.inr (List.mem_singleton.mp h1)

/-- Every entry after a batch upsert comes from the old store or from the
upserted entries. -/
theorem mem_upsertStore (entries : List (String × String × Metadata)) :
    ∀ (store : Store) (e : String × String × Metadata),
      e ∈ upsertStore store entries → e ∈ store ∨ e ∈ entries := by
  induction entries with
  | nil => exact fun store e h => Or.inl h
  | cons x xs ih =>
    intro store e h
    rcases ih (upsertOne store x) e h with h1 | h1
    · rcases mem_upsertOne store x e h1 with h2 | h2
      · exact Or.inl h2
      · exact Or.inr (h2 ▸ List.mem_cons_self x xs)
    · exact Or.inr (List.mem_cons_of_mem x h1)

/-- C3 amended: for every document-metadata pair the pipeline upserts,
`has_fulltext` is true iff the item's fulltext string is nonempty; the
embedded document text is exactly the fulltext whenever the fulltext has
non-whitespace content (a whitespace-only extraction is marked
`has_fulltext` but embeds the structured-fields text instead); the
extractor's source tag is one of `pdf`, `html`, `file`; the stored
`fulltext_source` is the item's source tag or empty; and every stored
entry either predates the batch or is a staged (id, document, metadata)
triple of one of the batch's items. -/
theorem claim_c3_metadata_invariant :
    (∀ item : ApiItem,
      ((create_metadata item).has_fulltext = true ↔ item.data.fulltext ≠ "")) ∧
    (∀ item : ApiItem, item.key ≠ "" → pyStrip item.data.fulltext ≠ "" →
      stageItem item = some (item.key, item.data.fulltext, create_metadata item)) ∧
    (∀ (env : Env) (itemId : Nat) (t s : String),
      extract_fulltext_for_item env itemId = some (t, s) →
      s = "pdf" ∨ s = "html" ∨ s = "file") ∧
    (∀ item : ApiItem,
      (create_metadata item).fulltext_source = item.data.fulltextSource ∨
      (create_metadata item).fulltext_source = "") ∧
    (∀ (store : Store) (items : List ApiItem) (upsertOk : Bool)
        (e : String × String × Metadata),
      e ∈ (process_item_batch store items upsertOk).2 →
      e ∈ store ∨ ∃ item ∈ items, stageItem item = some e) := by
  refine ⟨fun item => ?_, fun item hk hs => ?_, fun env itemId t s h => ?_,
    fun item => ?_, fun store items upsertOk e h => ?_⟩
  · simp [create_metadata]
  · simp only [stageItem, if_neg hk, if_pos hs, if_neg (by
      intro hcon
      exact hs hcon)]
  · unfold extract_fulltext_for_item at h
    rcases hbt : bestTarget env itemId with _ | target <;> rw [hbt] at h
    · exact absurd h (by simp)
    · by_cases htext : env.fileText target = ""
      · simp [htext] at h
      · simp only [htext, if_false, Option.some.injEq, Prod.mk.injEq] at h
        obtain ⟨-, hsrc⟩ := h
        split_ifs at hsrc
        · exact Or.inl hsrc.symm
        · exact Or.inr (Or.inl hsrc.symm)
        · exact Or.inr (Or.inr hsrc.symm)
  · by_cases hc : item.data.fulltext ≠ "" ∧ item.data.fulltextSource ≠ ""
    · exact Or.inl (by simp [create_metadata, hc])
    · exact Or.inr (by simp [create_metadata, hc])
  · unfold process_item_batch at h
    by_cases hcond : (List.filterMap stageItem items) ≠ [] ∧ upsertOk = true
    · simp only [if_pos hcond] at h
      rcases mem_upsertStore (items.filterMap stageItem) store e h with h1 | h1
      · exact Or.inl h1
      · obtain ⟨item, hmem, hstage⟩ := List.mem_filterMap.mp h1
        exact Or.inr ⟨item, hmem, hstage⟩
    · simp only [if_neg hcond] at h
      exact Or.inl h

/-- Witness for the amended C3: the metadata marker tracks the fulltext of
a concrete item, and the one stored entry of a concrete batch is a staged
triple of its input item. -/
theorem claim_c3_witness :
    ((create_metadata apiItemOk).has_fulltext = true ↔
      apiItemOk.data.fulltext ≠ "") ∧
    (("K1", "T1 No authors listed", create_metadata apiItemOk) ∈ ([] : Store) ∨
      ∃ item ∈ [apiItemOk], stageItem item =
        some ("K1", "T1 No authors listed", create_metadata apiItemOk)) :=
  ⟨claim_c3_metadata_invariant.1 apiItemOk,
   claim_c3_metadata_invariant.2.2.2.2 [] [apiItemOk] true
     ("K1", "T1 No authors listed", create_metadata apiItemOk) (by decide)⟩

/-! ## Claim C2: deduplication -/

/-- A key slot holds a journal article. -/
def jAat (m : DKey → Option ZoteroItem) (q : DKey) : Prop :=
  ∃ b, m q = some b ∧ b.item_type = some "journalArticle"

/-- The preference scores never exceed the journal-article score. -/
theorem typeScore_le_two (t : Option String) : typeScore t ≤ 2 := by
  unfold typeScore
  split_ifs <;> omega

/-- Only journal articles attain the top preference score. -/
theorem typeScore_eq_two (t : Option String) :
    typeScore t = 2 ↔ t = some "journalArticle" := by
  unfold typeScore
  split_ifs with h1 h2
  · simp [h1]
  · exact ⟨fun h => absurd h (by decide), fun h => absurd h h1⟩
  · exact ⟨fun h => absurd h (by decide), fun h => absurd h h1⟩

/-- `consider` with no key is the identity. -/
theorem considerKey_none (m : DKey → Option ZoteroItem) (it : ZoteroItem) :
    considerKey m none it = m := rfl

/-- `consider` on an empty slot writes the item. -/
theorem considerKey_some_none (m : DKey → Option ZoteroItem) (k : DKey)
    (it : ZoteroItem) (hm : m k = none) :
    considerKey m (some k) it = fun q => if q = k then some it else m q := by
  show (match m k with
    | none => fun q => if q = k then some it else m q
    | some cur =>
      if typeScore it.item_type > typeScore cur.item_type then
        (fun q => if q = k then some it else m q)
      else m) = fun q => if q = k then some it else m q
  rw [hm]

/-- `consider` on an occupied slot replaces the holder only when the item
ranks strictly higher. -/
theorem considerKey_some_some (m : DKey → Option ZoteroItem) (k : DKey)
    (it cur : ZoteroItem) (hm : m k = some cur) :
    considerKey m (some k) it =
      if typeScore cur.item_type < typeScore it.item_type then
        (fun q => if q = k then some it else m q)
      else m := by
  show (match m k with
    | none => fun q => if q = k then some it else m q
    | some cur =>
      if typeScore it.item_type > typeScore cur.item_type then
        (fun q => if q = k then some it else m q)
      else m) = _
  rw [hm]

/-- `consider` leaves slots other than its key untouched. -/
theorem considerKey_apply_ne (m : DKey → Option ZoteroItem)
    (k0 : Option DKey) (it : ZoteroItem) (q : DKey) (h : k0 ≠ some q) :
    considerKey m k0 it q = m q := by
  cases k0 with
  | none => rfl
  | some k =>
    have hk : q ≠ k := fun he => h (by rw [he])
    cases hm : m k with
    | none =>
      rw [considerKey_some_none m k it hm]
      exact if_neg hk
    | some cur =>
      rw [considerKey_some_some m k it cur hm]
      split_ifs with hs
      · exact if_neg hk
      · rfl

/-- `consider` never evicts a journal article from a slot. -/
theorem considerKey_jA_preserved (m : DKey → Option ZoteroItem)
    (k0 : Option DKey) (it : ZoteroItem) (q : DKey) (h : jAat m q) :
    jAat (considerKey m k0 it) q := by
  obtain ⟨b, hb, hbj⟩ := h
  by_cases hk : k0 = some q
  · subst hk
    rw [considerKey_some_some m q it b hb]
    split_ifs with hs
    · have h2 : typeScore b.item_type = 2 := (typeScore_eq_two _).mpr hbj
      have h3 := typeScore_le_two it.item_type
      omega
    · exact ⟨b, hb, hbj⟩
  · refine ⟨b, ?_, hbj⟩
    rw [considerKey_apply_ne m k0 it q hk]
    exact hb

/-- Considering a journal article installs a journal article in its key's
slot. -/
theorem considerKey_insert_jA (m : DKey → Option ZoteroItem)
    (k : DKey) (it : ZoteroItem)
    (hit : it.item_type = some "journalArticle") :
    jAat (considerKey m (some k) it) k := by
  cases hm : m k with
  | none =>
    refine ⟨it, ?_, hit⟩
    rw [considerKey_some_none m k it hm]
    exact if_pos rfl
  | some cur =>
    rw [considerKey_some_some m k it cur hm]
    split_ifs with hs
    · exact ⟨it, if_pos rfl, hit⟩
    · have hcur : typeScore cur.item_type = 2 := by
        have h2 : typeScore it.item_type = 2 := (typeScore_eq_two _).mpr hit
        have h3 := typeScore_le_two cur.item_type
        omega
      exact ⟨cur, hm, (typeScore_eq_two _).mp hcur⟩

/-- Whatever `consider` stores came from the old map or is the considered
item stored under its own key. -/
theorem considerKey_entries (m : DKey → Option ZoteroItem)
    (k0 : Option DKey) (it : ZoteroItem) (q : DKey) (b : ZoteroItem)
    (h : considerKey m k0 it q = some b) :
    m q = some b ∨ (b = it ∧ k0 = some q) := by
  by_cases hk : k0 = some q
  · subst hk
    cases hm : m q with
    | none =>
      rw [considerKey_some_none m q it hm] at h
      have h3 : (if q = q then some it else m q) = some b := h
      rw [if_pos rfl] at h3
      exact Or.inr ⟨(Option.some.inj h3).symm, rfl⟩
    | some cur =>
      rw [considerKey_some_some m q it cur hm] at h
      split_ifs at h with hs
      · have h3 : (if q = q then some it else m q) = some b := h
        rw [if_pos rfl] at h3
        exact Or.inr ⟨(Option.some.inj h3).symm, rfl⟩
      · rw [hm] at h
        exact Or.inl h
  · rw [considerKey_apply_ne m k0 it q hk] at h
    exact Or.inl h

/-- Membership in an item's key list, unfolded. -/
theorem mem_keysOf (it : ZoteroItem) (q : DKey) :
    q ∈ keysOf it ↔ doiKeyOf it = some q ∨ titleKeyOf it = some q := by
  unfold keysOf
  cases doiKeyOf it <;> cases titleKeyOf it <;>
    simp [eq_comm]

/-- One build-loop step stores only old entries or the new item under one
of its keys. -/
theorem dedupStep_entries (m : DKey → Option ZoteroItem) (it : ZoteroItem)
    (q : DKey) (b : ZoteroItem) (h : dedupStep m it q = some b) :
    m q = some b ∨ (b = it ∧ q ∈ keysOf it) := by
  unfold dedupStep at h
  rcases considerKey_entries _ _ _ _ _ h with h1 | ⟨hb, hk⟩
  · rcases considerKey_entries _ _ _ _ _ h1 with h2 | ⟨hb, hk⟩
    · exact Or.inl h2
    · exact Or.inr ⟨hb, (mem_keysOf it q).mpr (Or.inl hk)⟩
  · exact Or.inr ⟨hb, (mem_keysOf it q).mpr (Or.inr hk)⟩

/-- One build-loop step never evicts a journal article. -/
theorem dedupStep_jA_preserved (m : DKey → Option ZoteroItem)
    (it : ZoteroItem) (q : DKey) (h : jAat m q) :
    jAat (dedupStep m it) q :=
  considerKey_jA_preserved _ _ _ _ (considerKey_jA_preserved _ _ _ _ h)

/-- One build-loop step on a journal article installs a journal article in
each of its key slots. -/
theorem dedupStep_jA_insert (m : DKey → Option ZoteroItem)
    (it : ZoteroItem) (q : DKey)
    (hit : it.item_type = some "journalArticle") (hq : q ∈ keysOf it) :
    jAat (dedupStep m it) q := by
  rcases (mem_keysOf it q).mp hq with hk | hk
  · unfold dedupStep
    rw [hk]
    exact considerKey_jA_preserved _ _ _ _ (considerKey_insert_jA m q it hit)
  · unfold dedupStep
    rw [hk]
    exact considerKey_insert_jA _ q it hit

/-- Entries of the built index come from the initial map or from a list
item stored under one of its keys. -/
theorem foldl_dedupStep_entries (l : List ZoteroItem) :
    ∀ (m : DKey → Option ZoteroItem) (q : DKey) (b : ZoteroItem),
      (l.foldl dedupStep m) q = some b →
      m q = some b ∨ (b ∈ l ∧ q ∈ keysOf b) := by
  induction l with
  | nil => exact fun m q b h => Or.inl h
  | cons it l ih =>
    intro m q b h
    rcases ih (dedupStep m it) q b h with h1 | ⟨hmem, hk⟩
    · rcases dedupStep_entries m it q b h1 with h2 | ⟨hb, hk⟩
      · exact Or.inl h2
      · exact Or.inr ⟨hb ▸ List.mem_cons_self it l, hb ▸ hk⟩
    · exact Or.inr ⟨List.mem_cons_of_mem it hmem, hk⟩

/-- The build loop never evicts a journal article. -/
theorem foldl_dedupStep_jA_preserved (l : List ZoteroItem) :
    ∀ (m : DKey → Option ZoteroItem) (q : DKey), jAat m q →
      jAat (l.foldl dedupStep m) q := by
  induction l with
  | nil => exact fun m q h => h
  | cons it l ih => exact fun m q h => ih _ q (dedupStep_jA_preserved m it q h)

/-- A journal article anywhere in the list leaves a journal article in
each of its key slots of the built index. -/
theorem foldl_dedupStep_jA_insert (l : List ZoteroItem) :
    ∀ (m : DKey → Option ZoteroItem) (q : DKey),
      (∃ j ∈ l, j.item_type = some "journalArticle" ∧ q ∈ keysOf j) →
      jAat (l.foldl dedupStep m) q := by
  induction l with
  | nil => rintro m q ⟨j, hj, -⟩; exact absurd hj (List.not_mem_nil j)
  | cons it l ih =>
    rintro m q ⟨j, hj, hjt, hk⟩
    rcases List.mem_cons.mp hj with rfl | hj
    · exact foldl_dedupStep_jA_preserved l _ q (dedupStep_jA_insert m j q hjt hk)
    · exact ih _ q ⟨j, hj, hjt, hk⟩

/-- The `key_to_best` slot of `q` holds a journal article exactly when some
candidate journal article carries key `q`. -/
theorem keyToBest_jA_iff (l : List ZoteroItem) (q : DKey) :
    jAat (keyToBest l) q ↔
      ∃ j ∈ l, j.item_type = some "journalArticle" ∧ q ∈ keysOf j := by
  constructor
  · rintro ⟨b, hb, hbj⟩
    rcases foldl_dedupStep_entries l _ q b hb with h1 | ⟨hmem, hk⟩
    · exact absurd h1 (by simp)
    · exact ⟨b, hmem, hbj, hk⟩
  · exact foldl_dedupStep_jA_insert l _ q

/-- Non-preprints are never dropped. -/
theorem dedupDrop_false_of_not_preprint (m : DKey → Option ZoteroItem)
    (it : ZoteroItem) (h : it.item_type ≠ some "preprint") :
    dedupDrop m it = false := by
  unfold dedupDrop
  rw [if_neg h]

/-- The drop test, characterized by membership: a candidate is dropped
exactly when it is a preprint and some candidate journal article shares
one of its index keys (given distinct row ids, as the database
guarantees). -/
theorem dedupDrop_iff (l : List ZoteroItem) (it : ZoteroItem)
    (hids : (l.map ZoteroItem.item_id).Nodup) (hit : it ∈ l) :
    dedupDrop (keyToBest l) it = true ↔
      it.item_type = some "preprint" ∧
      ∃ q ∈ keysOf it, ∃ j ∈ l,
        j.item_type = some "journalArticle" ∧ q ∈ keysOf j := by
  unfold dedupDrop
  by_cases hp : it.item_type = some "preprint"
  · rw [if_pos hp]
    rw [List.any_eq_true]
    constructor
    · rintro ⟨q, hq, hmatch⟩
      rcases hkb : keyToBest l q with _ | best <;> rw [hkb] at hmatch
      · simp at hmatch
      · simp only [decide_eq_true_eq] at hmatch
        obtain ⟨hid, hbj⟩ := hmatch
        exact ⟨hp, q, hq, (keyToBest_jA_iff l q).mp ⟨best, hkb, hbj⟩⟩
    · rintro ⟨-, q, hq, hex⟩
      refine ⟨q, hq, ?_⟩
      obtain ⟨best, hkb, hbj⟩ := (keyToBest_jA_iff l q).mpr hex
      rw [hkb]
      simp only [decide_eq_true_eq]
      refine ⟨?_, hbj⟩
      intro heq
      have hbl : best ∈ l := by
        rcases foldl_dedupStep_entries l _ q best hkb with h1 | ⟨hm, -⟩
        · exact absurd h1 (by simp)
        · exact hm
      have hbe : best = it := List.inj_on_of_nodup_map hids hbl hit heq
      rw [hbe, hp] at hbj
      exact absurd hbj (by decide)
  · rw [if_neg hp]
    simp [hp]

/-- `consider` keeps the current holder when the new item does not rank
strictly higher. -/
theorem considerKey_keep (m : DKey → Option ZoteroItem) (k0 : Option DKey)
    (it cur : ZoteroItem) (q : DKey) (hm : m q = some cur)
    (hs : typeScore it.item_type ≤ typeScore cur.item_type) :
    considerKey m k0 it q = m q := by
  by_cases hk : k0 = some q
  · subst hk
    rw [considerKey_some_some m q it cur hm, if_neg (by omega)]
  · exact considerKey_apply_ne m k0 it q hk

/-- A DOI index key has DOI shape. -/
theorem doiKeyOf_shape (it : ZoteroItem) (q : DKey)
    (h : doiKeyOf it = some q) : ∃ s, q = DKey.doi s := by
  unfold doiKeyOf at h
  cases hdoi : it.doi with
  | none =>
    rw [hdoi] at h
    exact absurd h (by simp)
  | some ds =>
    rw [hdoi] at h
    have h2 : (if ds ≠ "" then some (DKey.doi (pyNorm ds)) else none) = some q := h
    split_ifs at h2 with he
    exact ⟨pyNorm ds, (Option.some.inj h2).symm⟩

/-- A title index key has title shape. -/
theorem titleKeyOf_shape (it : ZoteroItem) (q : DKey)
    (h : titleKeyOf it = some q) : ∃ s, q = DKey.title s := by
  unfold titleKeyOf at h
  cases hti : it.title with
  | none =>
    rw [hti] at h
    exact absurd h (by simp)
  | some ts =>
    rw [hti] at h
    have h2 : (if ts ≠ "" then some (DKey.title (pyNorm ts)) else none) = some q := h
    split_ifs at h2 with he
    exact ⟨pyNorm ts, (Option.some.inj h2).symm⟩

/-- C2: deduplication keeps exactly the journal article. Given a
candidate list with distinct row ids containing a journal article `J` and
a preprint `P` with the same normalized DOI `d`, and no other candidate
with that DOI, the deduplicated output restricted to DOI `d` is exactly
`[J]`; the surviving set is permutation-invariant in the input order; and
the index build step keeps the first-seen holder against an equal or
lower rank while a strictly higher rank replaces it — the
journal-article > preprint > other preference with first-seen ties. -/
theorem claim_c2_dedup :
    (∀ (l : List ZoteroItem) (J P : ZoteroItem) (d : String),
      (l.map ZoteroItem.item_id).Nodup →
      J ∈ l → P ∈ l →
      J.item_type = some "journalArticle" →
      P.item_type = some "preprint" →
      doiKeyOf J = some (DKey.doi d) →
      doiKeyOf P = some (DKey.doi d) →
      (∀ it ∈ l, doiKeyOf it = some (DKey.doi d) → it = J ∨ it = P) →
      (dedupItems l).filter
        (fun it => decide (doiKeyOf it = some (DKey.doi d))) = [J]) ∧
    (∀ l₁ l₂ : List ZoteroItem, (l₁.map ZoteroItem.item_id).Nodup →
      l₁.Perm l₂ → (dedupItems l₁).Perm (dedupItems l₂)) ∧
    (∀ (m : DKey → Option ZoteroItem) (it cur : ZoteroItem) (q : DKey),
      m q = some cur →
      typeScore it.item_type ≤ typeScore cur.item_type →
      dedupStep m it q = some cur) ∧
    (∀ (m : DKey → Option ZoteroItem) (it cur : ZoteroItem) (q : DKey),
      m q = some cur →
      typeScore cur.item_type < typeScore it.item_type →
      q ∈ keysOf it → dedupStep m it q = some it) := by
  refine ⟨?_, ?_, ?_, ?_⟩
  · intro l J P d hids hJ hP hJt hPt hJd hPd huniq
    have hnd : l.Nodup := hids.of_map
    have hJP : J ≠ P := by
      intro h
      rw [h] at hJt
      exact absurd (hJt.symm.trans hPt) (by decide)
    have hdropP : dedupDrop (keyToBest l) P = true := by
      rw [dedupDrop_iff l P hids hP]
      exact ⟨hPt, DKey.doi d, (mem_keysOf P _).mpr (Or.inl hPd),
        J, hJ, hJt, (mem_keysOf J _).mpr (Or.inl hJd)⟩
    have hkeepJ : dedupDrop (keyToBest l) J = false :=
      dedupDrop_false_of_not_preprint _ _ (by rw [hJt]; decide)
    unfold dedupItems
    rw [List.filter_filter]
    trans (l.filter (fun it => it == J))
    · refine List.filter_congr ?_
      intro a ha
      by_cases hd : doiKeyOf a = some (DKey.doi d)
      · rcases huniq a ha hd with rfl | rfl
        · simp [hd, hkeepJ]
        · have hPJ : ¬ (a = J) := fun h => hJP h.symm
          simp [hd, hdropP, hPJ]
      · by_cases haj : a = J
        · subst haj
          exact absurd hJd hd
        · simp [hd, haj]
    · rw [List.filter_beq l J, List.count_eq_one_of_mem hnd hJ]
      rfl
  · intro l1 l2 hids hperm
    have hids2 : (l2.map ZoteroItem.item_id).Nodup :=
      ((hperm.map ZoteroItem.item_id).nodup_iff).mp hids
    have hdd : ∀ it ∈ l1,
        dedupDrop (keyToBest l1) it = dedupDrop (keyToBest l2) it := by
      intro it hit
      have h1 := dedupDrop_iff l1 it hids hit
      have h2 := dedupDrop_iff l2 it hids2 (hperm.mem_iff.mp hit)
      have hiff : dedupDrop (keyToBest l1) it = true ↔
          dedupDrop (keyToBest l2) it = true := by
        rw [h1, h2]
        constructor
        · rintro ⟨hp, q, hq, j, hj, hjt, hk⟩
          exact ⟨hp, q, hq, j, hperm.subset hj, hjt, hk⟩
        · rintro ⟨hp, q, hq, j, hj, hjt, hk⟩
          exact ⟨hp, q, hq, j, hperm.symm.subset hj, hjt, hk⟩
      cases hb1 : dedupDrop (keyToBest l1) it <;>
        cases hb2 : dedupDrop (keyToBest l2) it <;> simp_all
    have hstep : dedupItems l1 =
        l1.filter (fun it => ¬ dedupDrop (keyToBest l2) it) :=
      List.filter_congr (fun a ha => by rw [hdd a ha])
    rw [hstep]
    show (l1.filter (fun it => ¬ dedupDrop (keyToBest l2) it)).Perm
      (l2.filter (fun it => ¬ dedupDrop (keyToBest l2) it))
    exact hperm.filter _
  · intro m it cur q hm hs
    have h1 : considerKey m (doiKeyOf it) it q = some cur :=
      (considerKey_keep m (doiKeyOf it) it cur q hm hs).trans hm
    have h2 : considerKey (considerKey m (doiKeyOf it) it)
        (titleKeyOf it) it q = some cur :=
      (considerKey_keep _ (titleKeyOf it) it cur q h1 hs).trans h1
    exact h2
  · intro m it cur q hm hs hq
    rcases (mem_keysOf it q).mp hq with hk | hk
    · obtain ⟨s, rfl⟩ : ∃ s, q = DKey.doi s := doiKeyOf_shape it q hk
      have htne : titleKeyOf it ≠ some (DKey.doi s) := by
        intro hcon
        obtain ⟨t, ht⟩ := titleKeyOf_shape it _ hcon
        exact DKey.noConfusion ht
      show considerKey (considerKey m (doiKeyOf it) it) (titleKeyOf it) it
        (DKey.doi s) = some it
      rw [considerKey_apply_ne _ _ _ _ htne, hk,
        considerKey_some_some m _ it cur hm, if_pos hs]
      exact if_pos rfl
    · obtain ⟨s, rfl⟩ : ∃ s, q = DKey.title s := titleKeyOf_shape it q hk
      have hdne : doiKeyOf it ≠ some (DKey.title s) := by
        intro hcon
        obtain ⟨t, ht⟩ := doiKeyOf_shape it _ hcon
        exact DKey.noConfusion ht
      have hinner : considerKey m (doiKeyOf it) it (DKey.title s) = some cur := by
        rw [considerKey_apply_ne _ _ _ _ hdne]
        exact hm
      show considerKey (considerKey m (doiKeyOf it) it) (titleKeyOf it) it
        (DKey.title s) = some it
      rw [hk, considerKey_some_some _ _ it cur hinner, if_pos hs]
      exact if_pos rfl

/-- Witness for C2: deduplicating the journal article `itemA` and its
preprint duplicate `itemB` keeps exactly `itemA` for their shared DOI. -/
theorem claim_c2_witness :
    (dedupItems [itemA, itemB]).filter
      (fun it => decide (doiKeyOf it = some (DKey.doi "x"))) = [itemA] :=
  claim_c2_dedup.1 [itemA, itemB] itemA itemB "x" (by decide) (by decide)
    (by decide) (by decide) (by decide) (by decide) (by decide) (by decide)

/-! ## Claim C7: idempotence of the extraction-mode run -/

/-- The head surviving `dropWhile` fails the predicate. -/
theorem dropWhile_head_false (p : α → Bool) :
    ∀ (l : List α) (x : α) (xs : List α),
      l.dropWhile p = x :: xs → p x = false := by
  intro l
  induction l with
  | nil =>
    intro x xs h
    exact absurd h (by simp)
  | cons a l ih =>
    intro x xs h
    rw [List.dropWhile_cons] at h
    split_ifs at h with ha
    · exact ih x xs h
    · cases h
      exact Bool.not_eq_true _ ▸ by simpa using ha

/-- An element failing the predicate survives `dropWhile`. -/
theorem mem_dropWhile_of_false (p : α → Bool) (c : α) :
    ∀ (l : List α), c ∈ l → p c = false → c ∈ l.dropWhile p := by
  intro l
  induction l with
  | nil =>
    intro h _
    exact absurd h (List.not_mem_nil c)
  | cons a l ih =>
    intro hc hp
    rw [List.dropWhile_cons]
    split_ifs with ha
    · rcases List.mem_cons.mp hc with rfl | hc
      · rw [hp] at ha
        exact absurd ha (by simp)
      · exact ih hc hp
    · exact hc

/-- A string containing a non-whitespace character strips to a nonempty
string. -/
theorem pyStrip_ne_empty (s : String)
    (h : ∃ c ∈ s.data, c.isWhitespace = false) : pyStrip s ≠ "" := by
  obtain ⟨c, hc, hcw⟩ := h
  intro he
  have h1 : c ∈ s.data.dropWhile Char.isWhitespace :=
    mem_dropWhile_of_false _ c s.data hc hcw
  have h2 : c ∈ (s.data.dropWhile Char.isWhitespace).reverse :=
    List.mem_reverse.mpr h1
  have h3 : c ∈ (s.data.dropWhile Char.isWhitespace).reverse.dropWhile
      Char.isWhitespace :=
    mem_dropWhile_of_false _ c _ h2 hcw
  have h4 : c ∈ ((s.data.dropWhile Char.isWhitespace).reverse.dropWhile
      Char.isWhitespace).reverse :=
    List.mem_reverse.mpr h3
  have h5 : ((s.data.dropWhile Char.isWhitespace).reverse.dropWhile
      Char.isWhitespace).reverse = ([] : List Char) :=
    congrArg String.data he
  rw [h5] at h4
  exact absurd h4 (List.not_mem_nil c)

/-- A nonempty stripped string contains a non-whitespace character. -/
theorem pyStrip_has_char (s : String) (h : pyStrip s ≠ "") :
    ∃ c ∈ (pyStrip s).data, c.isWhitespace = false := by
  rcases hd : ((s.data.dropWhile Char.isWhitespace).reverse.dropWhile
      Char.isWhitespace) with _ | ⟨x, xs⟩
  · exfalso
    apply h
    show String.mk (((s.data.dropWhile Char.isWhitespace).reverse.dropWhile
      Char.isWhitespace).reverse) = ""
    rw [hd]
    rfl
  · refine ⟨x, ?_, dropWhile_head_false _ _ x xs hd⟩
    show x ∈ ((s.data.dropWhile Char.isWhitespace).reverse.dropWhile
      Char.isWhitespace).reverse
    rw [hd]
    exact List.mem_reverse.mpr (List.mem_cons_self x xs)

/-- The separator-join of a list starting at `x` extends `x`. -/
theorem joinSep_head_prefix (sep : String) (x : String) (rest : List String) :
    ∃ suffix, joinSep sep (x :: rest) = x ++ suffix := by
  cases rest with
  | nil => exact ⟨"", (String.append_empty x).symm⟩
  | cons y ys =>
    exact ⟨sep ++ joinSep sep (y :: ys), String.append_assoc x sep _⟩

/-- Characters of any part occur in the separator-join. -/
theorem mem_joinSep (sep : String) :
    ∀ (parts : List String) (p : String), p ∈ parts →
      ∀ c ∈ p.data, c ∈ (joinSep sep parts).data := by
  intro parts
  induction parts with
  | nil =>
    intro p hp
    exact absurd hp (List.not_mem_nil p)
  | cons x rest ih =>
    intro p hp c hc
    rcases List.mem_cons.mp hp with rfl | hp
    · obtain ⟨suffix, hs⟩ := joinSep_head_prefix sep p rest
      rw [hs, String.data_append]
      exact List.mem_append_left _ hc
    · cases rest with
      | nil => exact absurd hp (List.not_mem_nil p)
      | cons y ys =>
        show c ∈ (x ++ sep ++ joinSep sep (y :: ys)).data
        rw [String.data_append]
        exact List.mem_append_right _ (ih p hp c hc)

/-- Every name a parsed creator formats to contains a non-whitespace
character (a comma, or the head of a stripped nonempty segment). -/
theorem parseCreator_name_char (c0 : String) (cr : Creator)
    (h : parseCreator c0 = some cr) (n : String)
    (hform : creatorName cr = some n) :
    ∃ c ∈ n.data, c.isWhitespace = false := by
  simp only [parseCreator] at h
  split_ifs at h with he hcomma
  · injection h with h
    subst h
    simp only [creatorName, Option.some.injEq] at hform
    subst hform
    refine ⟨',', ?_, by decide⟩
    rw [String.data_append, String.data_append]
    exact List.mem_append_left _ (List.mem_append_right _ (by decide))
  · injection h with h
    subst h
    simp only [creatorName, Option.some.injEq] at hform
    subst hform
    exact pyStrip_has_char c0 he

/-- The formatted creators string always contains a non-whitespace
character when the creators came from the local-database parser (or are
absent, yielding the `No authors listed` marker). -/
theorem format_creators_has_char (creators : List Creator)
    (h : creators = [] ∨ ∃ s, creators = parse_creators_string s) :
    ∃ c ∈ (format_creators creators).data, c.isWhitespace = false := by
  show ∃ c ∈ (if creators.filterMap creatorName ≠ [] then
      joinSep "; " (creators.filterMap creatorName)
    else "No authors listed").data, c.isWhitespace = false
  rcases hl : creators.filterMap creatorName with _ | ⟨n, ns⟩
  · rw [if_neg (by simp)]
    exact ⟨'N', by decide, by decide⟩
  · rw [if_pos (by simp)]
    have hmem : n ∈ creators.filterMap creatorName := by
      rw [hl]
      exact List.mem_cons_self n ns
    obtain ⟨cr, hcr, hform⟩ := List.mem_filterMap.mp hmem
    have hchar : ∃ c ∈ n.data, c.isWhitespace = false := by
      rcases h with rfl | ⟨s, rfl⟩
      · exact absurd hcr (List.not_mem_nil cr)
      · unfold parse_creators_string at hcr
        obtain ⟨c0, -, hc0⟩ := List.mem_filterMap.mp hcr
        exact parseCreator_name_char c0 cr hc0 n hform
    obtain ⟨c, hcd, hcw⟩ := hchar
    exact ⟨c, mem_joinSep "; " (n :: ns) n (List.mem_cons_self n ns) c hcd, hcw⟩

/-- The structured-fields document text of a local item never strips to
the empty string: it always contains the creators part. -/
theorem create_document_text_strip_ne (item : ApiItem)
    (h : item.data.creators = [] ∨
      ∃ s, item.data.creators = parse_creators_string s) :
    pyStrip (create_document_text item) ≠ "" := by
  obtain ⟨c, hcd, hcw⟩ := format_creators_has_char item.data.creators h
  apply pyStrip_ne_empty
  refine ⟨c, ?_, hcw⟩
  have hne : format_creators item.data.creators ≠ "" := by
    intro he
    rw [he] at hcd
    exact absurd hcd (List.not_mem_nil c)
  have hpart : format_creators item.data.creators ∈
      (([item.data.title, format_creators item.data.creators,
         item.data.abstractNote] ++
        ((if item.data.publicationTitle ≠ "" then [item.data.publicationTitle]
          else []) ++
         (if item.data.tags ≠ [] then [joinSep " " item.data.tags] else []) ++
         (if item.data.note ≠ "" then
            [(⟨stripTags item.data.note.data⟩ : String)]
          else []))).filter (fun x => x ≠ "")) := by
    apply List.mem_filter.mpr
    refine ⟨?_, by simpa using hne⟩
    exact List.mem_append_left _
      (List.mem_cons_of_mem _ (List.mem_cons_self _ _))
  exact mem_joinSep " " _ _ hpart c hcd

/-- The extraction step never changes the record key. -/
theorem extractStep_key (env : Env) (it : ZoteroItem) :
    (extractStep env it).key = it.key := by
  unfold extractStep
  split_ifs
  · rfl
  · rcases extract_fulltext_for_item env it.item_id with _ | ⟨t, s⟩ <;> rfl

/-- The extraction step on a fulltext-free row stores exactly the
extraction result. -/
theorem extractStep_fulltext (env : Env) (it : ZoteroItem)
    (h : it.fulltext = none) :
    (extractStep env it).fulltext =
      (extract_fulltext_for_item env it.item_id).map (fun ts => ts.1) := by
  rcases hext : extract_fulltext_for_item env it.item_id with _ | ⟨t, s⟩ <;>
    simp [extractStep, optTruthy, h, hext]

/-- A successful extraction returns a nonempty text. -/
theorem extract_text_ne (env : Env) (itemId : Nat) (t s : String)
    (h : extract_fulltext_for_item env itemId = some (t, s)) : t ≠ "" := by
  unfold extract_fulltext_for_item at h
  rcases hbt : bestTarget env itemId with _ | target <;> rw [hbt] at h
  · exact absurd h (by simp)
  · by_cases htext : env.fileText target = ""
    · simp [htext] at h
    · simp only [htext, if_false, Option.some.injEq, Prod.mk.injEq] at h
      obtain ⟨ht, -⟩ := h
      intro he
      rw [← ht] at he
      have hdata : (env.fileText target).data.take 10000 = [] :=
        congrArg String.data he
      rcases List.take_eq_nil_iff.mp hdata with h1 | h1
      · exact absurd h1 (by norm_num)
      · exact htext (by
          show String.mk (env.fileText target).data = ""
          rw [h1])

/-- No attachment rows means no extraction. -/
theorem extract_none_of_no_attachments (env : Env) (itemId : Nat)
    (h : env.attachmentsOf itemId = []) :
    extract_fulltext_for_item env itemId = none := by
  unfold extract_fulltext_for_item bestTarget bestAttachments
  rw [h]
  rfl

/-- Against an empty collection the probe keeps and extracts every
candidate. -/
theorem probeExtract_empty (env : Env) (items : List ZoteroItem) :
    probeExtract env (some []) false items = items.map (extractStep env) := by
  induction items with
  | nil => rfl
  | cons it rest ih =>
    have hstep : probeExtract env (some []) false (it :: rest) =
        extractStep env it :: probeExtract env (some []) false rest := by
      show List.filterMap _ (it :: rest) = _
      rw [List.filterMap_cons]
      rfl
    rw [hstep, ih]
    rfl

/-- When the probe skips every candidate, nothing is returned. -/
theorem probeExtract_all_skip (env : Env) (store : Store)
    (items : List ZoteroItem)
    (h : ∀ it ∈ items, shouldExtractDecision (some store) false it.key
      ((get_fulltext_meta_for_item env it.item_id).length > 0) = false) :
    probeExtract env (some store) false items = [] := by
  apply List.filterMap_eq_nil_iff.mpr
  intro it hit
  show (if shouldExtractDecision (some store) false it.key
      ((get_fulltext_meta_for_item env it.item_id).length > 0) then
    some (extractStep env it) else none) = none
  rw [h it hit, if_neg (by simp)]

/-- With stored metadata present, the probe skips unless the document
lacks fulltext while local fulltext is available. -/
theorem shouldExtractDecision_false (store : Store) (key : String)
    (lhf : Bool) (m : Metadata)
    (hm : get_document_metadata store key = some m)
    (h : m.has_fulltext = true ∨ lhf = false) :
    shouldExtractDecision (some store) false key lhf = false := by
  show (match get_document_metadata store key with
    | some existing =>
      if ¬ existing.has_fulltext = true ∧ lhf = true then true else false
    | none => true) = false
  rw [hm]
  show (if ¬ m.has_fulltext = true ∧ lhf = true then true else false) = false
  rcases h with h | h
  · rw [if_neg]
    intro hcon
    exact hcon.1 h
  · rw [if_neg]
    intro hcon
    rw [h] at hcon
    exact absurd hcon.2 (by simp)

/-- A successful batch upsert applies all staged entries to the store. -/
theorem process_item_batch_store_ok (store : Store) (b : List ApiItem) :
    (process_item_batch store b true).2 =
      upsertStore store (b.filterMap stageItem) := by
  unfold process_item_batch
  by_cases h : (b.filterMap stageItem) = []
  · rw [h, if_neg (by simp)]
    rfl
  · rw [if_pos ⟨h, rfl⟩]

/-- With every upsert succeeding, the batch loop applies all staged
entries of all batches in order. -/
theorem runBatches_store_ok (bs : List (List ApiItem)) :
    ∀ (store : Store) (i : Nat),
      (runBatches store bs (fun _ => true) i).2 =
        upsertStore store (bs.flatten.filterMap stageItem) := by
  induction bs with
  | nil =>
    intro store i
    rfl
  | cons b bs ih =>
    intro store i
    show (runBatches (process_item_batch store b true).2 bs
      (fun _ => true) (i + 1)).2 = _
    rw [ih _ (i + 1), process_item_batch_store_ok, List.flatten_cons,
      List.filterMap_append]
    unfold upsertStore
    rw [List.foldl_append]

/-- Upserting a fresh entry appends it. -/
theorem upsertOne_fresh (store : Store) (e : String × String × Metadata)
    (h : ∀ o ∈ store, ¬ o.1 = e.1) : upsertOne store e = store ++ [e] := by
  unfold upsertOne
  rw [if_neg]
  intro hcon
  obtain ⟨o, ho, hoe⟩ := List.any_eq_true.mp hcon
  exact h o ho (by simpa using hoe)

/-- Upserting entries with fresh, pairwise-distinct ids appends them all. -/
theorem upsertStore_fresh (entries : List (String × String × Metadata)) :
    ∀ (store : Store),
      (∀ e ∈ entries, ∀ o ∈ store, ¬ o.1 = e.1) →
      (entries.map (fun e => e.1)).Nodup →
      upsertStore store entries = store ++ entries := by
  induction entries with
  | nil =>
    intro store _ _
    show store = store ++ []
    rw [List.append_nil]
  | cons e es ih =>
    intro store hfresh hnd
    have h1 : upsertOne store e = store ++ [e] :=
      upsertOne_fresh store e (fun o ho => hfresh e (List.mem_cons_self e es) o ho)
    have h2 : ∀ x ∈ es, ∀ o ∈ store ++ [e], ¬ o.1 = x.1 := by
      intro x hx o ho
      rcases List.mem_append.mp ho with ho | ho
      · exact hfresh x (List.mem_cons_of_mem e hx) o ho
      · rw [List.mem_singleton.mp ho]
        intro hcon
        apply (List.nodup_cons.mp hnd).1
        exact List.mem_map.mpr ⟨x, hx, hcon.symm⟩
    show upsertStore (upsertOne store e) es = store ++ (e :: es)
    rw [h1, ih (store ++ [e]) h2 (List.nodup_cons.mp hnd).2,
      List.append_assoc]
    rfl

/-- Upserting entries with pairwise-distinct ids into an empty store
yields exactly those entries. -/
theorem upsertStore_nil (entries : List (String × String × Metadata))
    (hnd : (entries.map (fun e => e.1)).Nodup) :
    upsertStore [] entries = entries := by
  rw [upsertStore_fresh entries [] (fun e _ o ho => absurd ho (List.not_mem_nil o)) hnd]
  rfl

/-- Looking up a mapped entry list with distinct keys finds each item's
own entry. -/
theorem find?_map_entry (f : ZoteroItem → String × String × Metadata)
    (hf : ∀ it, (f it).1 = it.key) :
    ∀ (dd : List ZoteroItem), ((dd.map ZoteroItem.key).Nodup) →
      ∀ it ∈ dd, (dd.map f).find? (fun e => e.1 = it.key) = some (f it) := by
  intro dd
  induction dd with
  | nil =>
    intro _ it hit
    exact absurd hit (List.not_mem_nil it)
  | cons a rest ih =>
    intro hnd it hit
    rcases List.mem_cons.mp hit with rfl | hit
    · show ((f it) :: rest.map f).find? _ = _
      rw [List.find?_cons_of_pos]
      simp [hf it]
    · show ((f a) :: rest.map f).find? _ = _
      rw [List.find?_cons_of_neg, ih (List.nodup_cons.mp hnd).2 it hit]
      simp only [hf a, decide_eq_true_eq]
      intro hcon
      apply (List.nodup_cons.mp hnd).1
      rw [hcon]
      exact List.mem_map_of_mem ZoteroItem.key hit

/-- The (id, document, metadata) entry `_process_item_batch` stages for an
item it does not skip. -/
def stagedEntryOf (item : ApiItem) : String × String × Metadata :=
  (item.key,
   if pyStrip item.data.fulltext ≠ "" then item.data.fulltext
   else create_document_text item,
   create_metadata item)

/-- The API-format record a local-mode extraction run produces for one
deduplicated row (probing against an empty collection). -/
def localApiItem (env : Env) (it : ZoteroItem) : ApiItem :=
  toApiItem true (extractStep env it)

/-- The converted record keeps the row's key. -/
theorem localApiItem_key (env : Env) (it : ZoteroItem) :
    (localApiItem env it).key = it.key := by
  show (extractStep env it).key = it.key
  exact extractStep_key env it

/-- The creators list of a converted record is empty or parsed. -/
theorem toApiItem_creators_shape (e : Bool) (item : ZoteroItem) :
    (toApiItem e item).data.creators = [] ∨
    ∃ s, (toApiItem e item).data.creators = parse_creators_string s := by
  by_cases h : optTruthy item.creators
  · right
    refine ⟨item.creators.getD "", ?_⟩
    show (if optTruthy item.creators then
        parse_creators_string (item.creators.getD "") else []) =
      parse_creators_string (item.creators.getD "")
    rw [if_pos h]
  · left
    show (if optTruthy item.creators then
        parse_creators_string (item.creators.getD "") else []) = []
    rw [if_neg h]

/-- An item with a truthy key and parsed-or-empty creators is staged, with
the documented document text and metadata. -/
theorem stageItem_local (item : ApiItem) (hk : item.key ≠ "")
    (hcr : item.data.creators = [] ∨
      ∃ s, item.data.creators = parse_creators_string s) :
    stageItem item = some (stagedEntryOf item) := by
  simp only [stageItem]
  rw [if_neg hk]
  by_cases hft : pyStrip item.data.fulltext ≠ ""
  · rw [if_pos hft, if_neg hft]
    simp only [stagedEntryOf]
    rw [if_pos hft]
  · rw [if_neg hft, if_neg (create_document_text_strip_ne item hcr)]
    simp only [stagedEntryOf]
    rw [if_neg hft]

/-- A filterMap that never skips is a map. -/
theorem filterMap_eq_map_of_all_some (f : α → Option β) (g : α → β) :
    ∀ l : List α, (∀ x ∈ l, f x = some (g x)) → l.filterMap f = l.map g := by
  intro l
  induction l with
  | nil =>
    intro _
    rfl
  | cons a rest ih =>
    intro h
    rw [List.filterMap_cons, h a (List.mem_cons_self a rest),
      ih (fun x hx => h x (List.mem_cons_of_mem a hx))]
    rfl

/-- C7: pipeline idempotence. In local extraction mode, over a library
whose rows carry distinct truthy keys and whose fulltext is capturable
(extraction succeeds for every kept row that has attachment rows at all),
a first run against an empty collection followed immediately by a second
run with no source or store changes gives a second run with `added = 0`
and `skipped = total_items`, and leaves every stored document unchanged. -/
theorem claim_c7_idempotence (env : Env) (rows : List ZoteroItem)
    (hloc : env.isLocal = true) (hdb : env.localDb = .ok rows)
    (hkeys : ((rows.map sanitizeRow).map ZoteroItem.key).Nodup)
    (hkeysne : ∀ it ∈ rows.map sanitizeRow, it.key ≠ "")
    (hcap : ∀ it ∈ dedupItems (rows.map sanitizeRow),
      (extract_fulltext_for_item env it.item_id).isSome = true ∨
      env.attachmentsOf it.item_id = []) :
    (update_database env
        (update_database env [] false none true (fun _ => true)).2
        false none true (fun _ => true)).1.added_items = 0 ∧
    (update_database env
        (update_database env [] false none true (fun _ => true)).2
        false none true (fun _ => true)).1.skipped_items =
      (update_database env
        (update_database env [] false none true (fun _ => true)).2
        false none true (fun _ => true)).1.total_items ∧
    (update_database env
        (update_database env [] false none true (fun _ => true)).2
        false none true (fun _ => true)).2 =
      (update_database env [] false none true (fun _ => true)).2 := by
  have hddsub : List.Sublist (dedupItems (rows.map sanitizeRow))
      (rows.map sanitizeRow) := List.filter_sublist _
  have hddne : ∀ it ∈ dedupItems (rows.map sanitizeRow), it.key ≠ "" :=
    fun it hit => hkeysne it (hddsub.subset hit)
  have hddkeys : ((dedupItems (rows.map sanitizeRow)).map ZoteroItem.key).Nodup :=
    List.Nodup.sublist (List.Sublist.map ZoteroItem.key hddsub) hkeys
  have hddfn : ∀ it ∈ dedupItems (rows.map sanitizeRow), it.fulltext = none := by
    intro it hit
    obtain ⟨r, -, rfl⟩ := List.mem_map.mp (hddsub.subset hit)
    rfl
  have hfetch1 : get_items_from_source env none true (some []) false =
      .ok ((dedupItems (rows.map sanitizeRow)).map (localApiItem env)) := by
    unfold get_items_from_source
    rw [if_pos (And.intro rfl hloc)]
    unfold get_items_from_local_db
    rw [hdb]
    show Except.ok ((probeExtract env (some []) false
        (dedupItems (rows.map sanitizeRow))).map (toApiItem true)) =
      Except.ok ((dedupItems (rows.map sanitizeRow)).map (localApiItem env))
    rw [probeExtract_empty, List.map_map]
    rfl
  have hstage : ∀ item ∈ (dedupItems (rows.map sanitizeRow)).map (localApiItem env),
      stageItem item = some (stagedEntryOf item) := by
    intro item hitem
    obtain ⟨it, hit, rfl⟩ := List.mem_map.mp hitem
    exact stageItem_local (localApiItem env it)
      (by rw [localApiItem_key]; exact hddne it hit)
      (toApiItem_creators_shape true (extractStep env it))
  have hstaged : ((dedupItems (rows.map sanitizeRow)).map
        (localApiItem env)).filterMap stageItem =
      ((dedupItems (rows.map sanitizeRow)).map (localApiItem env)).map
        stagedEntryOf :=
    filterMap_eq_map_of_all_some stageItem stagedEntryOf _ hstage
  have hekeys : ((((dedupItems (rows.map sanitizeRow)).map
        (localApiItem env)).map stagedEntryOf).map (fun e => e.1)) =
      (dedupItems (rows.map sanitizeRow)).map ZoteroItem.key := by
    rw [List.map_map, List.map_map]
    exact List.map_congr_left (fun it _ => localApiItem_key env it)
  have hnd : (((((dedupItems (rows.map sanitizeRow)).map
      (localApiItem env)).map stagedEntryOf)).map (fun e => e.1)).Nodup := by
    rw [hekeys]
    exact hddkeys
  have hrun1 : (update_database env [] false none true (fun _ => true)).2 =
      ((dedupItems (rows.map sanitizeRow)).map (localApiItem env)).map
        stagedEntryOf := by
    simp only [update_database, Bool.false_eq_true, if_false, hfetch1]
    rw [runBatches_store_ok, chunksOf_flatten 50 (by norm_num), hstaged,
      upsertStore_nil _ hnd]
  have hmm : ((dedupItems (rows.map sanitizeRow)).map (localApiItem env)).map
        stagedEntryOf =
      (dedupItems (rows.map sanitizeRow)).map
        (fun x => stagedEntryOf (localApiItem env x)) := by
    rw [List.map_map]
    rfl
  have hdec2 : ∀ it ∈ dedupItems (rows.map sanitizeRow),
      shouldExtractDecision
        (some (((dedupItems (rows.map sanitizeRow)).map
          (localApiItem env)).map stagedEntryOf))
        false it.key
        ((get_fulltext_meta_for_item env it.item_id).length > 0) = false := by
    intro it hit
    have hfind := find?_map_entry (fun x => stagedEntryOf (localApiItem env x))
      (fun x => localApiItem_key env x) (dedupItems (rows.map sanitizeRow))
      hddkeys it hit
    have hgm : get_document_metadata
        (((dedupItems (rows.map sanitizeRow)).map (localApiItem env)).map
          stagedEntryOf) it.key =
        some (create_metadata (localApiItem env it)) := by
      unfold get_document_metadata
      rw [hmm, hfind]
      rfl
    apply shouldExtractDecision_false _ it.key _ _ hgm
    rcases hcap it hit with hx | hx
    · left
      obtain ⟨ts, hext⟩ := Option.isSome_iff_exists.mp hx
      obtain ⟨t, s⟩ := ts
      have hft : (localApiItem env it).data.fulltext = t := by
        have h0 : (localApiItem env it).data.fulltext =
            ((extractStep env it).fulltext).getD "" := rfl
        rw [h0, extractStep_fulltext env it (hddfn it hit), hext]
        rfl
      show decide (¬ (localApiItem env it).data.fulltext = "") = true
      rw [hft]
      exact decide_eq_true (extract_text_ne env it.item_id t s hext)
    · right
      have h0 : get_fulltext_meta_for_item env it.item_id = [] := by
        unfold get_fulltext_meta_for_item
        rw [hx]
        rfl
      show decide ((get_fulltext_meta_for_item env it.item_id).length > 0) = false
      rw [h0]
      rfl
  have hfetch2 : get_items_from_source env none true
      (some (((dedupItems (rows.map sanitizeRow)).map
        (localApiItem env)).map stagedEntryOf)) false = .ok [] := by
    unfold get_items_from_source
    rw [if_pos (And.intro rfl hloc)]
    unfold get_items_from_local_db
    rw [hdb]
    show Except.ok ((probeExtract env
        (some (((dedupItems (rows.map sanitizeRow)).map
          (localApiItem env)).map stagedEntryOf)) false
        (dedupItems (rows.map sanitizeRow))).map (toApiItem true)) =
      Except.ok []
    rw [probeExtract_all_skip env _ _ hdec2]
    rfl
  have hr2 : update_database env
      (update_database env [] false none true (fun _ => true)).2
      false none true (fun _ => true) =
      ({ total_items := 0, processed_items := 0, added_items := 0,
         updated_items := 0, skipped_items := 0, errors := 0, error := none },
       (update_database env [] false none true (fun _ => true)).2) := by
    rw [hrun1]
    simp only [update_database, Bool.false_eq_true, if_false, hfetch2]
    rfl
  refine ⟨?_, ?_, ?_⟩
  · rw [hr2]
  · rw [hr2]
  · rw [hr2]

/-- A one-row library for the idempotence witness: no attachments, so run
one stages the structured-fields document and run two probes it back. -/
def itemC7 : ZoteroItem where
  item_id := 1
  key := "KEY7"
  title := some "Idempotent"

/-- A local-mode environment serving exactly `itemC7`. -/
def envC7 : Env where
  isLocal := true
  localDb := .ok [itemC7]
  apiFetch := .error "down"
  attachmentsOf := fun _ => []
  fileExists := fun _ => false
  fileText := fun _ => ""

/-- Witness for C7: on the one-row local library, the second run adds
nothing, skips its whole candidate count and leaves the store unchanged. -/
theorem claim_c7_witness :
    (update_database envC7
        (update_database envC7 [] false none true (fun _ => true)).2
        false none true (fun _ => true)).1.added_items = 0 ∧
    (update_database envC7
        (update_database envC7 [] false none true (fun _ => true)).2
        false none true (fun _ => true)).1.skipped_items =
      (update_database envC7
        (update_database envC7 [] false none true (fun _ => true)).2
        false none true (fun _ => true)).1.total_items ∧
    (update_database envC7
        (update_database envC7 [] false none true (fun _ => true)).2
        false none true (fun _ => true)).2 =
      (update_database envC7 [] false none true (fun _ => true)).2 :=
  claim_c7_idempotence envC7 [itemC7] rfl rfl (by decide) (by decide)
    (by decide)

end ZoteroMcp
